import Mathlib

/-!
# Verification of the jpeglab baseline JPEG codec

This file is a shallow embedding, in Lean 4, of the core of the `jpeglab`
Rust crate (a baseline JPEG/JFIF encoder and partial decoder), together
with theorems settling the specification claims about it.

Conventions of the embedding:
* Rust machine integers (`u8`, `u16`, `usize`) become `Nat`; `i8`/`i16`
  become `Int`.  Wrap-around is modelled explicitly with `%` where the
  source can overflow; where a quantity is bounded by construction the
  plain value is used.
* Rust arrays `[T; 64]` / `[[T; 8]; 8]` are modelled either as total
  functions (`Nat → Int`, `Nat × Nat → Int`) updated pointwise, or as
  `List`s updated with `List.set`, depending on which claim uses them.
* `bitvec::BitVec` becomes `List Bool` in stream order (the order bits are
  pushed / read).  An `Lsb0` view of an integer is `lsbBits`; the
  `reverse` calls of the source become `List.reverse`.
* Fallible Rust code (`io::Result`) becomes the `Outcome` type below;
  `panic!`/`todo!()`/out-of-bounds indexing become `Outcome.panic`, and
  loops whose progress is not structurally evident are run on explicit
  fuel, with exhausted fuel mapped to `Outcome.hang` (never reached on the
  concrete inputs evaluated in this file).
-/

namespace Jpeglab

/-- The `io::ErrorKind` values the crate constructs. -/
inductive IoErrorKind where
  | invalidData
  | unsupported
  | unexpectedEof
deriving DecidableEq, Repr

/-- Result of running a piece of the Rust code: normal return, an
`io::Error` of the given kind, a panic (`todo!()`, `unwrap`, out-of-bounds
indexing), or exhausted fuel (possible divergence). -/
inductive Outcome (α : Type) where
  | ok : α → Outcome α
  | err : IoErrorKind → Outcome α
  | panic : Outcome α
  | hang : Outcome α
deriving DecidableEq, Repr

/-- Sequencing of fallible steps (`?` in the source). -/
def obind {α β : Type} : Outcome α → (α → Outcome β) → Outcome β
  | .ok a, f => f a
  | .err k, _ => .err k
  | .panic, _ => .panic
  | .hang, _ => .hang

/-! ## Bit-level utilities

`lsbBits a n` models `a.view_bits::<Lsb0>()[..n]`: the `n` low bits of
`a`, least significant first.  `codeBits c len` models the pattern
`c.view_bits::<Lsb0>().resize(len).reverse()` used throughout the crate:
the low `len` bits of `c` as an MSB-first bit string. -/

def lsbBits (a n : Nat) : List Bool :=
  (List.range n).map a.testBit

def codeBits (c len : Nat) : List Bool :=
  (lsbBits c len).reverse

/-- Numeric value of an MSB-first bit string (used only in statements). -/
def bitsVal : List Bool → Nat
  | [] => 0
  | b :: rest => b.toNat * 2 ^ rest.length + bitsVal rest

/-- Models `BitField::load` on an `Lsb0` bit slice: the bit at index `k`
has weight `2 ^ k`. -/
def loadLsb : List Bool → Nat
  | [] => 0
  | b :: rest => b.toNat + 2 * loadLsb rest

/-! ## The zigzag traversal

The crate hand-codes the same 8×8 zigzag walk four times
(`QuantizedDu::zigzag`, `ZigzagDu::to_quantized_du`, `parse_dqt`,
`QuantizationTable::to_dqt`).  All four bodies are the identical pair of
nested `while` loops over a cursor `(x, y)`; `zigzagPosAux` is the direct
translation of that control flow (the `Bool` argument tells which of the
two inner loops is running; a `break` flips it), and `zigzagPositions` is
the list of the 64 positions `(x, y)` visited in write order `idx = 0..63`. -/

def zigzagPosAux : Nat → Bool → Nat → Nat → List (Nat × Nat)
  | 0, _, _, _ => []
  | n + 1, up, x, y =>
    (x, y) ::
      (if up then
        (if y = 7 then zigzagPosAux n false (x + 1) y
         else if x = 0 then zigzagPosAux n false x (y + 1)
         else zigzagPosAux n true (x - 1) (y + 1))
      else
        (if x = 7 then zigzagPosAux n true x (y + 1)
         else if y = 0 then zigzagPosAux n true (x + 1) y
         else zigzagPosAux n false (x + 1) (y - 1)))

def zigzagPositions : List (Nat × Nat) :=
  zigzagPosAux 64 true 0 0

/-- Pointwise update of an 8×8 matrix modelled as a total function
(`ret[x][y] = v`). -/
def writeMat {α : Type} (m : Nat × Nat → α) (p : Nat × Nat) (v : α) : Nat × Nat → α :=
  fun q => if q = p then v else m q

/-- Pointwise update of a flat 64-array modelled as a total function
(`ret[i] = v`). -/
def writeFlat {α : Type} (z : Nat → α) (i : Nat) (v : α) : Nat → α :=
  fun j => if j = i then v else z j

/-- `QuantizedDu::zigzag` (encode_step5.rs): starting from the all-zero
flat array, write `ret[idx] = input[x][y]` along the zigzag walk. -/
def zigzag (m : Nat × Nat → Int) : Nat → Int :=
  (zigzagPositions.enum).foldl (fun acc pi => writeFlat acc pi.1 (m pi.2)) (fun _ => 0)

/-- `ZigzagDu::to_quantized_du` (decode_step3.rs): starting from the
all-zero matrix, write `ret[x][y] = input[idx]` along the zigzag walk. -/
def to_quantized_du (z : Nat → Int) : Nat × Nat → Int :=
  (zigzagPositions.enum).foldl (fun acc pi => writeMat acc pi.2 (z pi.1)) (fun _ => 0)

/-! ## The entropy coder's value encoding (the "VLI")

`get_category` (encode_step6.rs) computes
`abs_value.view_bits::<Msb0>().first_one().map_or(0, |v| (16 - 1 - v) + 1)`:
the `Msb0` view of a `u16` lists bit `15 - i` at index `i`, and
`first_one` is `findIdx?` of the identity. -/

def get_category (abs_value : Nat) : Nat :=
  match ((List.range 16).map (fun i => abs_value.testBit (15 - i))).findIdx? (fun b => b) with
  | none => 0
  | some v => (16 - 1 - v) + 1

/-- The value-bit block of `entropy_encode_category` (encode_step6.rs):
the low `category` bits of `|value|` (`Lsb0` view, sliced, then reversed
to MSB-first), complemented when the value is negative.  The caller
guards this with `category != 0`; for `value = 0` it yields `[]`. -/
def entropy_encode_value_bits (value : Int) : List Bool :=
  let abs_value := value.natAbs
  let category := get_category abs_value
  let abs_bits := (lsbBits abs_value category).reverse
  if 0 < value then abs_bits else abs_bits.map (fun v => !v)

/-- `entropy_encode_category` (encode_step6.rs).  The
`CachedHuffmanTable` is modelled as a total function from symbols to
codewords (the source `unwrap`s the `HashMap` lookup). -/
def entropy_encode_category (huffman_table : Nat → List Bool) (value : Int)
    (zrl : Option Nat) : List Bool :=
  let abs_value := value.natAbs
  let category := get_category abs_value
  let symbol := (zrl.getD 0) <<< 4 ||| category
  huffman_table symbol ++ (if category ≠ 0 then entropy_encode_value_bits value else [])

/-! ## Canonical Huffman code generation (encode_step6.rs) -/

/-- `JpegHuffmanTable`: `codes[n]` counts the codewords of length
`n + 1`; `values` lists the leaf symbols in code order. -/
structure JpegHuffmanTable where
  codes : List Nat
  values : List Nat
deriving DecidableEq, Repr

/-- Inner loop of `JpegHuffmanTable::generate_bits`: emit `k` codewords
of length `len`, incrementing the counter after each
(`bits = c.view_bits::<Lsb0>().resize(len).reverse(); c += 1`). -/
def genRow (c len : Nat) : Nat → List (List Bool)
  | 0 => []
  | k + 1 => codeBits c len :: genRow (c + 1) len k

/-- Outer loop of `generate_bits`: after the row for one length the
counter is doubled (`c *= 2`) and the length grows by one. -/
def generateBitsAux (c len : Nat) : List Nat → List (List Bool)
  | [] => []
  | k :: rest => genRow c len k ++ generateBitsAux ((c + k) * 2) (len + 1) rest

/-- `JpegHuffmanTable::generate_bits` (encode_step6.rs). -/
def generate_bits (codes : List Nat) : List (List Bool) :=
  generateBitsAux 0 1 codes

/-- `JpegHuffmanTable::to_cached` (encode_step6.rs): the `HashMap` from
`values[i]` to the `i`-th generated codeword, as an association list in
insertion order. -/
def to_cached (t : JpegHuffmanTable) : List (Nat × List Bool) :=
  t.values.zip (generate_bits t.codes)

/-- The claim's validity condition `Σ count[L] / 2^L ≤ 1`, scaled by
`2^16` for a 16-entry `code_lengths` list: the head entry (length 1) has
weight `2^15`, the last (length 16) weight `2^0`.  The condition of the
claim is `kraftSum codes ≤ 2^16`. -/
def kraftSum : List Nat → Nat
  | [] => 0
  | k :: rest => k * 2 ^ rest.length + kraftSum rest

/-- Loop invariant of the canonical construction: at each length the next
`k` code values stay below `2^len`, recursively. -/
def kraftInv (c len : Nat) : List Nat → Prop
  | [] => True
  | k :: rest => c + k ≤ 2 ^ len ∧ kraftInv ((c + k) * 2) (len + 1) rest

/-- Relation between two generated codewords: neither is a prefix of the
other, and codewords of equal length are in strictly ascending numeric
order. -/
def HuffRel (a b : List Bool) : Prop :=
  ¬ a <+: b ∧ ¬ b <+: a ∧ (a.length = b.length → bitsVal a < bitsVal b)

/-- The canonical-code rule as the spec words it, as `(length, value)`
pairs: the value starts at 0, is incremented once per symbol, and is
shifted left by one when moving to the next length. -/
def canonicalCodes (c len : Nat) : List Nat → List (Nat × Nat)
  | [] => []
  | k :: rest =>
    ((List.range k).map (fun j => (len, c + j)))
      ++ canonicalCodes ((c + k) * 2) (len + 1) rest

/-! ## The AC run-length encoder (encode_step6.rs)

`AcEncoder` carries `zero_run_length`.  `ac_flush_false` is the `while`
loop of `AcEncoder::flush(false)` (emit a ZRL code and subtract 16 while
the run is at least 16), returning the remaining run and the emitted
bits; `ac_next` is `AcEncoder::next`; `ac_flush_true` is the
`AcEncoder::flush(true)` branch (EOB iff the run is nonzero). -/

def ac_flush_false (t : Nat → List Bool) (r : Nat) : Nat × List Bool :=
  if _h : 16 ≤ r then
    let step := ac_flush_false t (r - 16)
    (step.1, entropy_encode_category t 0 (some 15) ++ step.2)
  else (r, [])
termination_by r
decreasing_by omega

def ac_next (t : Nat → List Bool) (r : Nat) (value : Int) : Nat × List Bool :=
  if value = 0 then (r + 1, [])
  else
    let fr := ac_flush_false t r
    (0, fr.2 ++ entropy_encode_category t value (some fr.1))

def ac_flush_true (t : Nat → List Bool) (r : Nat) : List Bool :=
  if r ≠ 0 then entropy_encode_category t 0 none else []

/-- One `ret.append(&mut ac_encoder.next(v))` step of `encode_du`:
advance the encoder state and append the produced bits. -/
def ac_step (t : Nat → List Bool) (st : Nat × List Bool) (v : Int) : Nat × List Bool :=
  let nx := ac_next t st.1 v
  (nx.1, st.2 ++ nx.2)

/-- The AC half of `encode_du` (encode_step6.rs): a fresh `AcEncoder`,
`next` on each AC coefficient in zigzag order, then `flush(true)`. -/
def ac_encode_du (t : Nat → List Bool) (acs : List Int) : List Bool :=
  let st := acs.foldl (ac_step t) (0, [])
  st.2 ++ ac_flush_true t st.1

/-- Modelled from the spec: the claim's eager ZRL rule — a zero
increments `r` and, the moment `r` reaches 16, a ZRL code is emitted and
16 subtracted; a nonzero coefficient emits `(r << 4) | category` plus
value bits; after the last position EOB iff `r > 0`.  Used only to
compare the claim against the code. -/
def ac_eager_spec (t : Nat → List Bool) : List Int → Nat → List Bool
  | [], r => if 0 < r then entropy_encode_category t 0 none else []
  | v :: rest, r =>
    if v = 0 then
      if r + 1 = 16 then
        entropy_encode_category t 0 (some 15) ++ ac_eager_spec t rest (r + 1 - 16)
      else ac_eager_spec t rest (r + 1)
    else entropy_encode_category t v (some r) ++ ac_eager_spec t rest 0

/-- The lazy characterization the code actually implements: zeros only
count; a nonzero coefficient first emits `⌊r/16⌋` ZRL codes and then the
symbol `((r mod 16) << 4) | category`; at the end EOB iff `r > 0` (so a
trailing zero run — of any length — produces only EOB). -/
def ac_run_spec (t : Nat → List Bool) : List Int → Nat → List Bool
  | [], r => if 0 < r then entropy_encode_category t 0 none else []
  | v :: rest, r =>
    if v = 0 then ac_run_spec t rest (r + 1)
    else (List.replicate (r / 16) (entropy_encode_category t 0 (some 15))).flatten
      ++ entropy_encode_category t v (some (r % 16)) ++ ac_run_spec t rest 0

/-! ## Scan byte packing and byte-stuffing (encode_step7.rs) -/

/-- One byte of `JpegOutputData::to_image_data`: the storage byte of the
scan bit vector (bits in `Lsb0` order, dead bits beyond the vector's
length kept zero) after the per-byte `view_bits::<Lsb0>().reverse()` —
i.e. up to eight stream bits packed MSB-first, the final partial byte
padded with the zeroed dead bits. -/
def byteChunk (bits : List Bool) : Nat :=
  bitsVal (bits.take 8 ++ List.replicate (8 - (bits.take 8).length) false)

/-- `n` storage bytes (`raw_vec.resize((scan.len() + 7) / 8, 0)`),
byte `i` holding stream bits `8*i ..`. -/
def toBytesMsbAux : Nat → List Bool → List Nat
  | 0, _ => []
  | n + 1, bits => byteChunk bits :: toBytesMsbAux n (bits.drop 8)

def toBytesMsb (scan : List Bool) : List Nat :=
  toBytesMsbAux ((scan.length + 7) / 8) scan

/-- `JpegOutputData::to_image_data` (encode_step7.rs): the packed scan
bytes with a `0x00` stuffed after every literal `0xFF`. -/
def to_image_data (scan : List Bool) : List Nat :=
  (toBytesMsb scan).foldl (fun acc v => acc ++ (if v = 255 then [v, 0] else [v])) []

/-! ## The marker serializer (encode_step7.rs)

Each `ToVec` impl writes through a big-endian `ByteBuffer`; `u16be`
models `write_u16`. -/

def u16be (v : Nat) : List Nat := [v / 256 % 256, v % 256]

structure APP0 where
  length : Nat
  identifier : List Nat
  major_version : Nat
  minor_version : Nat
  units : Nat
  x_density : Nat
  y_density : Nat
  x_thumbnail : Nat
  y_thumbnail : Nat
deriving DecidableEq, Repr

def APP0.default : APP0 :=
  ⟨16, [0x4A, 0x46, 0x49, 0x46, 0x00], 1, 1, 0, 1, 1, 0, 0⟩

def APP0.to_vec (a : APP0) : List Nat :=
  [0xFF, 0xE0] ++ u16be a.length ++ a.identifier
    ++ [a.major_version, a.minor_version, a.units]
    ++ u16be a.x_density ++ u16be a.y_density ++ [a.x_thumbnail, a.y_thumbnail]

structure DQT where
  length : Nat
  is_precision_16 : Bool
  id : Nat
  table : List Nat
deriving DecidableEq, Repr

def DQT.default : DQT := ⟨131, true, 0, List.replicate 64 0⟩

def DQT.to_vec (d : DQT) : List Nat :=
  [0xFF, 0xDB] ++ u16be d.length
    ++ [(if d.is_precision_16 then 1 else 0) <<< 4 ||| d.id]
    ++ (d.table.map u16be).flatten

/-- `QuantizationTable::to_dqt` (encode_step7.rs): flatten the 8×8 table
into zigzag order (the same hand-coded walk, `table[idx] = input[x][y]`)
and tag it with the given id. -/
def to_dqt (qt : List (List Nat)) (id : Nat) : DQT :=
  { DQT.default with
    id := id
    table := zigzagPositions.map (fun p => (qt.getD p.1 []).getD p.2 0) }

structure SOF0Component where
  id : Nat
  horizontal_sampling_factor : Nat
  vertical_sampling_factor : Nat
  quantization_id : Nat
deriving DecidableEq, Repr

structure SOF0 where
  length : Nat
  precision : Nat
  lines : Nat
  samples_per_line : Nat
  components : List SOF0Component
deriving DecidableEq, Repr

def SOF0.default : SOF0 :=
  ⟨17, 8, 0, 0, [⟨1, 2, 1, 0⟩, ⟨2, 1, 1, 1⟩, ⟨3, 1, 1, 1⟩]⟩

def SOF0.to_vec (s : SOF0) : List Nat :=
  [0xFF, 0xC0] ++ u16be s.length ++ [s.precision]
    ++ u16be s.lines ++ u16be s.samples_per_line
    ++ [s.components.length]
    ++ (s.components.map (fun c =>
          [c.id, c.horizontal_sampling_factor <<< 4 ||| c.vertical_sampling_factor,
            c.quantization_id])).flatten

structure DHT where
  length : Nat
  table_class : Nat
  id : Nat
  codes : List Nat
  values : List Nat
deriving DecidableEq, Repr

/-- `JpegHuffmanTable::to_dht` (encode_step7.rs). -/
def to_dht (t : JpegHuffmanTable) (id table_class : Nat) : DHT :=
  ⟨2 + 1 + 16 + t.values.length, table_class, id, t.codes, t.values⟩

def DHT.to_vec (d : DHT) : List Nat :=
  [0xFF, 0xC4] ++ u16be d.length ++ [d.table_class <<< 4 ||| d.id]
    ++ d.codes ++ d.values

structure SOSComponent where
  id : Nat
  dc_huffman_id : Nat
  ac_huffman_id : Nat
deriving DecidableEq, Repr

structure SOS where
  length : Nat
  components : List SOSComponent
  ss : Nat
  se : Nat
  ah : Nat
  al : Nat
deriving DecidableEq, Repr

def SOS.default : SOS :=
  ⟨12, [⟨1, 0, 1⟩, ⟨2, 2, 3⟩, ⟨3, 2, 3⟩], 0, 63, 0, 0⟩

def SOS.to_vec (s : SOS) : List Nat :=
  [0xFF, 0xDA] ++ u16be s.length ++ [s.components.length]
    ++ (s.components.map (fun c =>
          [c.id, c.dc_huffman_id <<< 4 ||| c.ac_huffman_id])).flatten
    ++ [s.ss, s.se, s.ah <<< 4 ||| s.al]

/-- `JpegOutputData` (encode_step6.rs). -/
structure JpegOutputData where
  original_width : Nat
  original_height : Nat
  scan : List Bool

/-! ## The built-in quantization tables (encode_step4.rs) -/

/-- `LUMINANCE_QUANTIZATION_TABLE` (encode_step4.rs). -/
def LUMINANCE_QUANTIZATION_TABLE : List (List Nat) :=
  [[16, 11, 10, 16, 24, 40, 51, 61],
   [12, 12, 14, 19, 26, 58, 60, 55],
   [14, 13, 16, 24, 40, 57, 69, 56],
   [14, 17, 22, 29, 51, 87, 80, 62],
   [18, 22, 37, 56, 68, 109, 103, 77],
   [24, 35, 55, 64, 81, 104, 113, 92],
   [49, 64, 78, 87, 103, 121, 120, 101],
   [72, 92, 95, 98, 112, 100, 103, 99]]

/-- `CHROMINANCE_QUANTIZATION_TABLE` (encode_step4.rs). -/
def CHROMINANCE_QUANTIZATION_TABLE : List (List Nat) :=
  [[17, 18, 24, 47, 99, 99, 99, 99],
   [18, 21, 26, 66, 99, 99, 99, 99],
   [24, 26, 56, 99, 99, 99, 99, 99],
   [47, 66, 99, 99, 99, 99, 99, 99],
   [99, 99, 99, 99, 99, 99, 99, 99],
   [99, 99, 99, 99, 99, 99, 99, 99],
   [99, 99, 99, 99, 99, 99, 99, 99],
   [99, 99, 99, 99, 99, 99, 99, 99]]

/-! ## The built-in Huffman tables (encode_step6.rs)

The source builds these four tables by parsing the embedded text tables
(`generate_huffman_table`): `codes[n]` counts the listed codewords of
length `n + 1` and `values` lists the symbols ordered by (length, order
of appearance).  The constants below are the result of exactly that
computation on the four text tables. -/

/-- `DEFAULT_LUMINANCE_DC_HUFFMAN_TABLE` (from the `LUMINANCE_DC` text table). -/
def DEFAULT_LUMINANCE_DC_HUFFMAN_TABLE : JpegHuffmanTable :=
  ⟨[0, 1, 5, 1, 1, 1, 1, 1, 1, 0, 0, 0, 0, 0, 0, 0],
   [0, 1, 2, 3, 4, 5, 6, 7, 8, 9, 10, 11]⟩

/-- `DEFAULT_CHROMA_DC_HUFFMAN_TABLE` (from the `CHROMA_DC` text table). -/
def DEFAULT_CHROMA_DC_HUFFMAN_TABLE : JpegHuffmanTable :=
  ⟨[0, 3, 1, 1, 1, 1, 1, 1, 1, 1, 1, 0, 0, 0, 0, 0],
   [0, 1, 2, 3, 4, 5, 6, 7, 8, 9, 10, 11]⟩

/-- `DEFAULT_LUMINANCE_AC_HUFFMAN_TABLE` (from the `LUMINANCE_AC` text table). -/
def DEFAULT_LUMINANCE_AC_HUFFMAN_TABLE : JpegHuffmanTable :=
  ⟨[0, 2, 1, 3, 3, 2, 4, 3, 5, 5, 4, 4, 0, 0, 1, 125],
   [1, 2, 3, 0, 4, 17, 5, 18, 33, 49, 65, 6, 19, 81, 97, 7, 34, 113, 20,
   50, 129, 145, 161, 8, 35, 66, 177, 193, 21, 82, 209, 240, 36, 51, 98,
   114, 130, 9, 10, 22, 23, 24, 25, 26, 37, 38, 39, 40, 41, 42, 52, 53,
   54, 55, 56, 57, 58, 67, 68, 69, 70, 71, 72, 73, 74, 83, 84, 85, 86, 87,
   88, 89, 90, 99, 100, 101, 102, 103, 104, 105, 106, 115, 116, 117, 118,
   119, 120, 121, 122, 131, 132, 133, 134, 135, 136, 137, 138, 146, 147,
   148, 149, 150, 151, 152, 153, 154, 162, 163, 164, 165, 166, 167, 168,
   169, 170, 178, 179, 180, 181, 182, 183, 184, 185, 186, 194, 195, 196,
   197, 198, 199, 200, 201, 202, 210, 211, 212, 213, 214, 215, 216, 217,
   218, 225, 226, 227, 228, 229, 230, 231, 232, 233, 234, 241, 242, 243,
   244, 245, 246, 247, 248, 249, 250]⟩

/-- `DEFAULT_CHROMA_AC_HUFFMAN_TABLE` (from the `CHROMA_AC` text table). -/
def DEFAULT_CHROMA_AC_HUFFMAN_TABLE : JpegHuffmanTable :=
  ⟨[0, 2, 1, 2, 4, 4, 3, 4, 7, 5, 4, 4, 0, 1, 2, 119],
   [0, 1, 2, 3, 17, 4, 5, 33, 49, 6, 18, 65, 81, 7, 97, 113, 19, 34, 50,
   129, 8, 20, 66, 145, 161, 177, 193, 9, 35, 51, 82, 240, 21, 98, 114,
   209, 10, 22, 36, 52, 225, 37, 241, 23, 24, 25, 26, 38, 39, 40, 41, 42,
   53, 54, 55, 56, 57, 58, 67, 68, 69, 70, 71, 72, 73, 74, 83, 84, 85, 86,
   87, 88, 89, 90, 99, 100, 101, 102, 103, 104, 105, 106, 115, 116, 117,
   118, 119, 120, 121, 122, 130, 131, 132, 133, 134, 135, 136, 137, 138,
   146, 147, 148, 149, 150, 151, 152, 153, 154, 162, 163, 164, 165, 166,
   167, 168, 169, 170, 178, 179, 180, 181, 182, 183, 184, 185, 186, 194,
   195, 196, 197, 198, 199, 200, 201, 202, 210, 211, 212, 213, 214, 215,
   216, 217, 218, 226, 227, 228, 229, 230, 231, 232, 233, 234, 242, 243,
   244, 245, 246, 247, 248, 249, 250]⟩

/-- `encode_step7` (encode_step7.rs), up to the file write: SOI, default
APP0, the two built-in DQTs with ids 0 and 1, SOF0 carrying the image
dimensions (`as u16`), the four default Huffman tables as DHT segments
with `id = i` and `class = i % 2`, the default SOS, the byte-stuffed
scan, and EOI. -/
def encode_step7_bytes (data : JpegOutputData) : List Nat :=
  let app0 := APP0.default
  let dqts := [to_dqt LUMINANCE_QUANTIZATION_TABLE 0, to_dqt CHROMINANCE_QUANTIZATION_TABLE 1]
  let sof0 : SOF0 := { SOF0.default with
    lines := data.original_height % 65536
    samples_per_line := data.original_width % 65536 }
  let dhts := [to_dht DEFAULT_LUMINANCE_DC_HUFFMAN_TABLE 0 0,
    to_dht DEFAULT_LUMINANCE_AC_HUFFMAN_TABLE 1 1,
    to_dht DEFAULT_CHROMA_DC_HUFFMAN_TABLE 2 0,
    to_dht DEFAULT_CHROMA_AC_HUFFMAN_TABLE 3 1]
  [0xFF, 0xD8] ++ app0.to_vec ++ (dqts.map DQT.to_vec).flatten ++ sof0.to_vec
    ++ (dhts.map DHT.to_vec).flatten ++ SOS.default.to_vec
    ++ to_image_data data.scan ++ [0xFF, 0xD9]

/-! Segment byte literals used to decompose the serializer layout proof. -/

def c7App0Lit : List Nat :=
  [255, 224, 0, 16, 74, 70, 73, 70, 0, 1, 1, 0, 0, 1, 0, 1, 0, 0]

def c7DqtLit : List Nat :=
  [255, 219, 0, 131, 16, 0, 16, 0, 11, 0, 12, 0, 14, 0, 12, 0, 10, 0, 16,
   0, 14, 0, 13, 0, 14, 0, 18, 0, 17, 0, 16, 0, 19, 0, 24, 0, 40, 0, 26,
   0, 24, 0, 22, 0, 22, 0, 24, 0, 49, 0, 35, 0, 37, 0, 29, 0, 40, 0, 58,
   0, 51, 0, 61, 0, 60, 0, 57, 0, 51, 0, 56, 0, 55, 0, 64, 0, 72, 0, 92,
   0, 78, 0, 64, 0, 68, 0, 87, 0, 69, 0, 55, 0, 56, 0, 80, 0, 109, 0, 81,
   0, 87, 0, 95, 0, 98, 0, 103, 0, 104, 0, 103, 0, 62, 0, 77, 0, 113, 0,
   121, 0, 112, 0, 100, 0, 120, 0, 92, 0, 101, 0, 103, 0, 99, 255, 219, 0,
   131, 17, 0, 17, 0, 18, 0, 18, 0, 24, 0, 21, 0, 24, 0, 47, 0, 26, 0, 26,
   0, 47, 0, 99, 0, 66, 0, 56, 0, 66, 0, 99, 0, 99, 0, 99, 0, 99, 0, 99,
   0, 99, 0, 99, 0, 99, 0, 99, 0, 99, 0, 99, 0, 99, 0, 99, 0, 99, 0, 99,
   0, 99, 0, 99, 0, 99, 0, 99, 0, 99, 0, 99, 0, 99, 0, 99, 0, 99, 0, 99,
   0, 99, 0, 99, 0, 99, 0, 99, 0, 99, 0, 99, 0, 99, 0, 99, 0, 99, 0, 99,
   0, 99, 0, 99, 0, 99, 0, 99, 0, 99, 0, 99, 0, 99, 0, 99, 0, 99, 0, 99,
   0, 99, 0, 99, 0, 99, 0, 99, 0, 99]

def c7SofHeadLit : List Nat := [255, 192, 0, 17, 8]

def c7SofCompLit : List Nat := [3, 1, 33, 0, 2, 17, 1, 3, 17, 1]

def c7DhtLit : List Nat :=
  [255, 196, 0, 31, 0, 0, 1, 5, 1, 1, 1, 1, 1, 1, 0, 0, 0, 0, 0, 0, 0, 0,
   1, 2, 3, 4, 5, 6, 7, 8, 9, 10, 11, 255, 196, 0, 181, 17, 0, 2, 1, 3, 3,
   2, 4, 3, 5, 5, 4, 4, 0, 0, 1, 125, 1, 2, 3, 0, 4, 17, 5, 18, 33, 49,
   65, 6, 19, 81, 97, 7, 34, 113, 20, 50, 129, 145, 161, 8, 35, 66, 177,
   193, 21, 82, 209, 240, 36, 51, 98, 114, 130, 9, 10, 22, 23, 24, 25, 26,
   37, 38, 39, 40, 41, 42, 52, 53, 54, 55, 56, 57, 58, 67, 68, 69, 70, 71,
   72, 73, 74, 83, 84, 85, 86, 87, 88, 89, 90, 99, 100, 101, 102, 103,
   104, 105, 106, 115, 116, 117, 118, 119, 120, 121, 122, 131, 132, 133,
   134, 135, 136, 137, 138, 146, 147, 148, 149, 150, 151, 152, 153, 154,
   162, 163, 164, 165, 166, 167, 168, 169, 170, 178, 179, 180, 181, 182,
   183, 184, 185, 186, 194, 195, 196, 197, 198, 199, 200, 201, 202, 210,
   211, 212, 213, 214, 215, 216, 217, 218, 225, 226, 227, 228, 229, 230,
   231, 232, 233, 234, 241, 242, 243, 244, 245, 246, 247, 248, 249, 250,
   255, 196, 0, 31, 2, 0, 3, 1, 1, 1, 1, 1, 1, 1, 1, 1, 0, 0, 0, 0, 0, 0,
   1, 2, 3, 4, 5, 6, 7, 8, 9, 10, 11, 255, 196, 0, 181, 19, 0, 2, 1, 2, 4,
   4, 3, 4, 7, 5, 4, 4, 0, 1, 2, 119, 0, 1, 2, 3, 17, 4, 5, 33, 49, 6, 18,
   65, 81, 7, 97, 113, 19, 34, 50, 129, 8, 20, 66, 145, 161, 177, 193, 9,
   35, 51, 82, 240, 21, 98, 114, 209, 10, 22, 36, 52, 225, 37, 241, 23,
   24, 25, 26, 38, 39, 40, 41, 42, 53, 54, 55, 56, 57, 58, 67, 68, 69, 70,
   71, 72, 73, 74, 83, 84, 85, 86, 87, 88, 89, 90, 99, 100, 101, 102, 103,
   104, 105, 106, 115, 116, 117, 118, 119, 120, 121, 122, 130, 131, 132,
   133, 134, 135, 136, 137, 138, 146, 147, 148, 149, 150, 151, 152, 153,
   154, 162, 163, 164, 165, 166, 167, 168, 169, 170, 178, 179, 180, 181,
   182, 183, 184, 185, 186, 194, 195, 196, 197, 198, 199, 200, 201, 202,
   210, 211, 212, 213, 214, 215, 216, 217, 218, 226, 227, 228, 229, 230,
   231, 232, 233, 234, 242, 243, 244, 245, 246, 247, 248, 249, 250]

def c7SosLit : List Nat := [255, 218, 0, 12, 3, 1, 1, 2, 35, 3, 35, 0, 63, 0]

/-- The fixed bytes the serializer emits before the image height: SOI,
default APP0, the two DQT segments (ids 0 and 1, 16-bit precision,
zigzag order), and the SOF0 marker, length and precision byte. -/
def serializedHeaderPre : List Nat :=
  [255, 216, 255, 224, 0, 16, 74, 70, 73, 70, 0, 1, 1, 0, 0, 1, 0, 1, 0,
   0, 255, 219, 0, 131, 16, 0, 16, 0, 11, 0, 12, 0, 14, 0, 12, 0, 10, 0,
   16, 0, 14, 0, 13, 0, 14, 0, 18, 0, 17, 0, 16, 0, 19, 0, 24, 0, 40, 0,
   26, 0, 24, 0, 22, 0, 22, 0, 24, 0, 49, 0, 35, 0, 37, 0, 29, 0, 40, 0,
   58, 0, 51, 0, 61, 0, 60, 0, 57, 0, 51, 0, 56, 0, 55, 0, 64, 0, 72, 0,
   92, 0, 78, 0, 64, 0, 68, 0, 87, 0, 69, 0, 55, 0, 56, 0, 80, 0, 109, 0,
   81, 0, 87, 0, 95, 0, 98, 0, 103, 0, 104, 0, 103, 0, 62, 0, 77, 0, 113,
   0, 121, 0, 112, 0, 100, 0, 120, 0, 92, 0, 101, 0, 103, 0, 99, 255, 219,
   0, 131, 17, 0, 17, 0, 18, 0, 18, 0, 24, 0, 21, 0, 24, 0, 47, 0, 26, 0,
   26, 0, 47, 0, 99, 0, 66, 0, 56, 0, 66, 0, 99, 0, 99, 0, 99, 0, 99, 0,
   99, 0, 99, 0, 99, 0, 99, 0, 99, 0, 99, 0, 99, 0, 99, 0, 99, 0, 99, 0,
   99, 0, 99, 0, 99, 0, 99, 0, 99, 0, 99, 0, 99, 0, 99, 0, 99, 0, 99, 0,
   99, 0, 99, 0, 99, 0, 99, 0, 99, 0, 99, 0, 99, 0, 99, 0, 99, 0, 99, 0,
   99, 0, 99, 0, 99, 0, 99, 0, 99, 0, 99, 0, 99, 0, 99, 0, 99, 0, 99, 0,
   99, 0, 99, 0, 99, 0, 99, 0, 99, 0, 99, 255, 192, 0, 17, 8]

/-- The fixed bytes between the image width and the scan: the SOF0
component entries for 4:2:2, the four DHT segments (class/id bytes
`0x00`, `0x11`, `0x02`, `0x13`, i.e. table ids 0, 1, 2, 3), and the SOS
segment whose component entries reference DC/AC table ids (0, 1) for
component 1 and (2, 3) for components 2 and 3. -/
def serializedTablesMid : List Nat :=
  [3, 1, 33, 0, 2, 17, 1, 3, 17, 1, 255, 196, 0, 31, 0, 0, 1, 5, 1, 1, 1,
   1, 1, 1, 0, 0, 0, 0, 0, 0, 0, 0, 1, 2, 3, 4, 5, 6, 7, 8, 9, 10, 11,
   255, 196, 0, 181, 17, 0, 2, 1, 3, 3, 2, 4, 3, 5, 5, 4, 4, 0, 0, 1, 125,
   1, 2, 3, 0, 4, 17, 5, 18, 33, 49, 65, 6, 19, 81, 97, 7, 34, 113, 20,
   50, 129, 145, 161, 8, 35, 66, 177, 193, 21, 82, 209, 240, 36, 51, 98,
   114, 130, 9, 10, 22, 23, 24, 25, 26, 37, 38, 39, 40, 41, 42, 52, 53,
   54, 55, 56, 57, 58, 67, 68, 69, 70, 71, 72, 73, 74, 83, 84, 85, 86, 87,
   88, 89, 90, 99, 100, 101, 102, 103, 104, 105, 106, 115, 116, 117, 118,
   119, 120, 121, 122, 131, 132, 133, 134, 135, 136, 137, 138, 146, 147,
   148, 149, 150, 151, 152, 153, 154, 162, 163, 164, 165, 166, 167, 168,
   169, 170, 178, 179, 180, 181, 182, 183, 184, 185, 186, 194, 195, 196,
   197, 198, 199, 200, 201, 202, 210, 211, 212, 213, 214, 215, 216, 217,
   218, 225, 226, 227, 228, 229, 230, 231, 232, 233, 234, 241, 242, 243,
   244, 245, 246, 247, 248, 249, 250, 255, 196, 0, 31, 2, 0, 3, 1, 1, 1,
   1, 1, 1, 1, 1, 1, 0, 0, 0, 0, 0, 0, 1, 2, 3, 4, 5, 6, 7, 8, 9, 10, 11,
   255, 196, 0, 181, 19, 0, 2, 1, 2, 4, 4, 3, 4, 7, 5, 4, 4, 0, 1, 2, 119,
   0, 1, 2, 3, 17, 4, 5, 33, 49, 6, 18, 65, 81, 7, 97, 113, 19, 34, 50,
   129, 8, 20, 66, 145, 161, 177, 193, 9, 35, 51, 82, 240, 21, 98, 114,
   209, 10, 22, 36, 52, 225, 37, 241, 23, 24, 25, 26, 38, 39, 40, 41, 42,
   53, 54, 55, 56, 57, 58, 67, 68, 69, 70, 71, 72, 73, 74, 83, 84, 85, 86,
   87, 88, 89, 90, 99, 100, 101, 102, 103, 104, 105, 106, 115, 116, 117,
   118, 119, 120, 121, 122, 130, 131, 132, 133, 134, 135, 136, 137, 138,
   146, 147, 148, 149, 150, 151, 152, 153, 154, 162, 163, 164, 165, 166,
   167, 168, 169, 170, 178, 179, 180, 181, 182, 183, 184, 185, 186, 194,
   195, 196, 197, 198, 199, 200, 201, 202, 210, 211, 212, 213, 214, 215,
   216, 217, 218, 226, 227, 228, 229, 230, 231, 232, 233, 234, 242, 243,
   244, 245, 246, 247, 248, 249, 250, 255, 218, 0, 12, 3, 1, 1, 2, 35, 3,
   35, 0, 63, 0]

/-! ## The marker parser (decode_step1.rs)

The `ByteBuffer` (big-endian) is a byte list with a read position.
Reading past the end is the crate's `UnexpectedEof` error.  Loops whose
variant is the read position run on structural fuel (always ample for
the inputs evaluated here); exhausted fuel is `Outcome.hang`. -/

structure ByteReader where
  data : List Nat
  rpos : Nat
deriving DecidableEq, Repr

def read_u8 (b : ByteReader) : Outcome (Nat × ByteReader) :=
  if b.rpos < b.data.length then .ok (b.data.getD b.rpos 0, ⟨b.data, b.rpos + 1⟩)
  else .err .unexpectedEof

def read_u16 (b : ByteReader) : Outcome (Nat × ByteReader) :=
  obind (read_u8 b) fun p1 =>
  obind (read_u8 p1.2) fun p2 =>
  .ok (p1.1 * 256 + p2.1, p2.2)

def read_bytes (b : ByteReader) (n : Nat) : Outcome (List Nat × ByteReader) :=
  if b.rpos + n ≤ b.data.length then
    .ok ((b.data.drop b.rpos).take n, ⟨b.data, b.rpos + n⟩)
  else .err .unexpectedEof

/-- `read_block` (decode_step1.rs): big-endian length (which includes its
own two bytes), rejected below 2, then the body. -/
def read_block (b : ByteReader) : Outcome (List Nat × ByteReader) :=
  obind (read_u16 b) fun p =>
  if p.1 < 2 then .err .invalidData
  else read_bytes p.2 (p.1 - 2)

/-- `Component` (decode_step1.rs); the quantization table is an 8×8
matrix, the cached Huffman tables symbol→codeword association lists. -/
structure Component where
  horizontal_sampling_factor : Nat
  vertical_sampling_factor : Nat
  quatization_table : List (List Nat)
  dc_huffman_table : List (Nat × List Bool)
  ac_huffman_table : List (Nat × List Bool)
deriving DecidableEq, Repr

structure TempComponent where
  horizontal_sampling_factor : Nat
  vertical_sampling_factor : Nat
  quatization_table_id : Nat
  dc_huffman_table_id : Nat
  ac_huffman_table_id : Nat
deriving DecidableEq, Repr

structure CompleteJpegData where
  width : Nat
  height : Nat
  components : List Component
  scan : List Bool
deriving DecidableEq, Repr

/-- `parse_app0` (decode_step1.rs): the field reads in order; the parsed
record itself is discarded by the caller, only a too-short block's error
escapes. -/
def parse_app0 (block : List Nat) : Outcome Unit :=
  obind (read_bytes ⟨block, 0⟩ 5) fun p1 =>
  obind (read_u8 p1.2) fun p2 =>
  obind (read_u8 p2.2) fun p3 =>
  obind (read_u8 p3.2) fun p4 =>
  obind (read_u16 p4.2) fun p5 =>
  obind (read_u16 p5.2) fun p6 =>
  obind (read_u8 p6.2) fun p7 =>
  obind (read_u8 p7.2) fun _ =>
  .ok ()

/-- The 64 table reads of `parse_dqt`: `u8` entries when the precision
nibble is 0, big-endian `u16` entries otherwise. -/
def readQtValues (precision : Nat) : Nat → ByteReader → Outcome (List Nat × ByteReader)
  | 0, b => .ok ([], b)
  | n + 1, b =>
    obind (if precision = 0 then read_u8 b else read_u16 b) fun p =>
    obind (readQtValues precision n p.2) fun q =>
    .ok (p.1 :: q.1, q.2)

/-- `output[x][y] = v` on an 8×8 matrix held as lists. -/
def writeMatList (m : List (List Nat)) (p : Nat × Nat) (v : Nat) : List (List Nat) :=
  m.set p.1 ((m.getD p.1 []).set p.2 v)

/-- `parse_dqt` (decode_step1.rs).  The low nibble of the first byte —
the table's wire id — is read into `_id` and ignored by the source
(`// 忽略 ID，假设按顺序。`); only the precision nibble is used.  The 64
values are read in stream order and placed along the same zigzag walk
(`output[x][y]` with `(x, y)` following `zigzagPositions`). -/
def parse_dqt (block : List Nat) : Outcome (List (List Nat)) :=
  obind (read_u8 ⟨block, 0⟩) fun p =>
  let precision := p.1 >>> 4
  obind (readQtValues precision 64 p.2) fun q =>
  .ok ((zigzagPositions.zip q.1).foldl (fun acc pv => writeMatList acc pv.1 pv.2)
    (List.replicate 8 (List.replicate 8 0)))

def readSof0Components : Nat → ByteReader → Outcome (List TempComponent × ByteReader)
  | 0, b => .ok ([], b)
  | n + 1, b =>
    obind (read_u8 b) fun i =>
    obind (read_u8 i.2) fun sf =>
    obind (read_u8 sf.2) fun qt =>
    obind (readSof0Components n qt.2) fun rest =>
    .ok ({ horizontal_sampling_factor := sf.1 >>> 4,
           vertical_sampling_factor := sf.1 &&& 0x0F,
           quatization_table_id := qt.1,
           dc_huffman_table_id := 0,
           ac_huffman_table_id := 0 } :: rest.1, rest.2)

/-- `parse_sof0` (decode_step1.rs): precision must be 8 and the component
count 3 (`Unsupported` otherwise); height comes before width; the
per-component id is read and ignored. -/
def parse_sof0 (block : List Nat) : Outcome ((Nat × Nat) × List TempComponent) :=
  obind (read_u8 ⟨block, 0⟩) fun precision =>
  if precision.1 ≠ 8 then .err .unsupported
  else
    obind (read_u16 precision.2) fun height =>
    obind (read_u16 height.2) fun width =>
    obind (read_u8 width.2) fun n_components =>
    if n_components.1 ≠ 3 then .err .unsupported
    else
      obind (readSof0Components n_components.1 n_components.2) fun comps =>
      .ok ((height.1, width.1), comps.1)

def readU8s : Nat → ByteReader → Outcome (List Nat × ByteReader)
  | 0, b => .ok ([], b)
  | n + 1, b =>
    obind (read_u8 b) fun p =>
    obind (readU8s n p.2) fun q =>
    .ok (p.1 :: q.1, q.2)

/-- `parse_dht` (decode_step1.rs): class and id nibbles, the 16 length
counts, then every remaining block byte as a symbol; the table is
returned already cached (`to_cached`). -/
def parse_dht (block : List Nat) : Outcome ((List (Nat × List Bool)) × Nat × Nat) :=
  obind (read_u8 ⟨block, 0⟩) fun tci =>
  let table_class := tci.1 >>> 4
  let id := tci.1 &&& 0x0F
  obind (readU8s 16 tci.2) fun codes =>
  let values := codes.2.data.drop codes.2.rpos
  .ok (to_cached ⟨codes.1, values⟩, table_class, id)

/-- The per-component loop of `parse_sos`: `temp_components[i]` is
indexed directly, so a SOS naming more components than SOF0 declared is
a Rust panic. -/
def sosLoop : Nat → Nat → ByteReader → List TempComponent →
    Outcome (List TempComponent × ByteReader)
  | _, 0, b, comps => .ok (comps, b)
  | i, k + 1, b, comps =>
    obind (read_u8 b) fun i1 =>
    obind (read_u8 i1.2) fun ht =>
    if h : i < comps.length then
      sosLoop (i + 1) k ht.2 (comps.set i
        { comps.get ⟨i, h⟩ with
          dc_huffman_table_id := ht.1 >>> 4
          ac_huffman_table_id := ht.1 &&& 0x0F })
    else .panic

def parse_sos (block : List Nat) (temp_components : List TempComponent) :
    Outcome (List TempComponent) :=
  obind (read_u8 ⟨block, 0⟩) fun n =>
  obind (sosLoop 0 n.1 n.2 temp_components) fun r =>
  .ok r.1

/-- `parse_image_data` (decode_step1.rs): un-stuffing loop over the rest
of the main buffer — a data byte contributes its eight bits MSB-first, a
stuffed `0xFF 0x00` contributes `0xFF`'s bits, `0xFF 0xD9` ends the
scan, any other `0xFF xx` is `InvalidData`; running out of bytes simply
ends the loop. -/
def parse_image_data : Nat → ByteReader → Bool → List Bool →
    Outcome (List Bool × ByteReader)
  | 0, _, _, _ => .hang
  | fuel + 1, b, is_pre_ff, acc =>
    if b.rpos < b.data.length then
      let byte := b.data.getD b.rpos 0
      let b2 : ByteReader := ⟨b.data, b.rpos + 1⟩
      if (!is_pre_ff && byte != 0xFF) || (is_pre_ff && byte == 0x00) then
        let byte2 := if is_pre_ff then 0xFF else byte
        parse_image_data fuel b2 (byte == 0xFF) (acc ++ codeBits byte2 8)
      else if !is_pre_ff && byte == 0xFF then
        parse_image_data fuel b2 (byte == 0xFF) acc
      else if is_pre_ff && byte == 0xD9 then
        .ok (acc, b2)
      else
        .err .invalidData
    else .ok (acc, b)

/-- The mutable state of the `decode_step1` loop. -/
structure DecodeStep1State where
  ret_width : Nat
  ret_height : Nat
  ret_scan : List Bool
  temp_components : List TempComponent
  quantization_tables : List (List (List Nat))
  huffman_tables : List ((Nat × Nat) × List (Nat × List Bool))
deriving DecidableEq, Repr

/-- `BTreeMap::insert` on the `(class, id)`-keyed Huffman table map. -/
def insertHuffman (m : List ((Nat × Nat) × List (Nat × List Bool)))
    (k : Nat × Nat) (v : List (Nat × List Bool)) :
    List ((Nat × Nat) × List (Nat × List Bool)) :=
  if m.any (fun kv => kv.1 == k) then
    m.map (fun kv => if kv.1 == k then (k, v) else kv)
  else m ++ [(k, v)]

def findHuffman (m : List ((Nat × Nat) × List (Nat × List Bool))) (k : Nat × Nat) :
    Option (List (Nat × List Bool)) :=
  (m.find? (fun kv => kv.1 == k)).map (fun kv => kv.2)

/-- The marker loop of `decode_step1` (decode_step1.rs): every segment
must begin `0xFF`; SOI is skipped, APP0 parsed and discarded, APPn
skipped, DQT appended to the table vector, SOF0 stores the dimensions
and replaces the component list, DHT inserted under `(class, id)`, SOS
binds the Huffman ids and then consumes the scan; any other marker byte
is `InvalidData`.  No ordering between markers is enforced. -/
def decodeStep1Loop : Nat → ByteReader → DecodeStep1State →
    Outcome (DecodeStep1State × ByteReader)
  | 0, _, _ => .hang
  | fuel + 1, b, st =>
    if b.rpos < b.data.length then
      obind (read_u8 b) fun hd =>
      if hd.1 ≠ 0xFF then .err .invalidData
      else
        obind (read_u8 hd.2) fun bt =>
        if bt.1 = 0xD8 then decodeStep1Loop fuel bt.2 st
        else if bt.1 = 0xE0 then
          obind (read_block bt.2) fun blk =>
          obind (parse_app0 blk.1) fun _ =>
          decodeStep1Loop fuel blk.2 st
        else if 0xE1 ≤ bt.1 ∧ bt.1 ≤ 0xEF then
          obind (read_block bt.2) fun blk =>
          decodeStep1Loop fuel blk.2 st
        else if bt.1 = 0xDB then
          obind (read_block bt.2) fun blk =>
          obind (parse_dqt blk.1) fun dqt =>
          decodeStep1Loop fuel blk.2
            { st with quantization_tables := st.quantization_tables ++ [dqt] }
        else if bt.1 = 0xC0 then
          obind (read_block bt.2) fun blk =>
          obind (parse_sof0 blk.1) fun r =>
          decodeStep1Loop fuel blk.2
            { st with ret_height := r.1.1, ret_width := r.1.2, temp_components := r.2 }
        else if bt.1 = 0xC4 then
          obind (read_block bt.2) fun blk =>
          obind (parse_dht blk.1) fun r =>
          decodeStep1Loop fuel blk.2
            { st with huffman_tables := insertHuffman st.huffman_tables (r.2.1, r.2.2) r.1 }
        else if bt.1 = 0xDA then
          obind (read_block bt.2) fun blk =>
          obind (parse_sos blk.1 st.temp_components) fun comps =>
          obind (parse_image_data (b.data.length + 1) blk.2 false []) fun img =>
          decodeStep1Loop fuel img.2
            { st with temp_components := comps, ret_scan := img.1 }
        else .err .invalidData
    else .ok (st, b)

/-- The fixup pass at the end of `decode_step1`: a component's
`quatization_table_id` indexes the table vector positionally, its
Huffman ids are looked up under `(0, dc)` and `(1, ac)`; a missing entry
is a Rust panic (`Vec`/`BTreeMap` indexing). -/
def fixupComponents : List TempComponent → List (List (List Nat)) →
    List ((Nat × Nat) × List (Nat × List Bool)) → Outcome (List Component)
  | [], _, _ => .ok []
  | t :: rest, qts, hts =>
    match qts.get? t.quatization_table_id,
        findHuffman hts (0, t.dc_huffman_table_id),
        findHuffman hts (1, t.ac_huffman_table_id) with
    | some qt, some dc, some ac =>
      obind (fixupComponents rest qts hts) fun comps =>
      .ok ({ horizontal_sampling_factor := t.horizontal_sampling_factor,
             vertical_sampling_factor := t.vertical_sampling_factor,
             quatization_table := qt,
             dc_huffman_table := dc,
             ac_huffman_table := ac } :: comps)
    | _, _, _ => .panic

/-- `decode_step1` (decode_step1.rs). -/
def decode_step1 (buf : List Nat) : Outcome CompleteJpegData :=
  obind (decodeStep1Loop (buf.length + 1) ⟨buf, 0⟩ ⟨0, 0, [], [], [], []⟩) fun r =>
  obind (fixupComponents r.1.temp_components r.1.quantization_tables r.1.huffman_tables)
    fun comps =>
  .ok { width := r.1.ret_width, height := r.1.ret_height,
        components := comps, scan := r.1.ret_scan }

/-- `entropy_decode_value` (decode_step2.rs).  Reads `category` bits of
`scan` starting at `offset`; slicing past the end of the bit vector is a
Rust panic. -/
def entropy_decode_value (scan : List Bool) (offset : Nat) (category : Nat) :
    Outcome (Int × Nat) :=
  if category >>> 4 ≠ 0 then .err .invalidData
  else if category = 0 then .ok (0, offset)
  else if offset + category ≤ scan.length then
    let bits := (scan.drop offset).take category
    let is_positive := bits.headD false
    let bits2 := bits.reverse
    let abs_bits := if is_positive then bits2 else bits2.map (fun v => !v)
    let abs_value := loadLsb abs_bits
    .ok (if is_positive then (abs_value : Int) else -(abs_value : Int), offset + category)
  else .panic

/-! ## Entropy decoding (decode_step2.rs) -/

/-- `entropy_decode_category` (decode_step2.rs): scan the cached table
for the first codeword that is a prefix of the remaining bits.  The
source iterates a `HashMap` in unspecified order; the model iterates the
association list in insertion order (for a prefix-free table at most one
entry can match, so the order is immaterial). -/
def entropy_decode_category (scan : List Bool) (offset : Nat)
    (ht : List (Nat × List Bool)) : Outcome (Nat × Nat) :=
  match ht.find? (fun kv => kv.2.isPrefixOf (scan.drop offset)) with
  | some kv => .ok (kv.1, offset + kv.2.length)
  | none => .err .invalidData

/-- `DcDecoder::decode` (decode_step2.rs): category, then value bits, the
running sum updated with the differential.  (The source sum is an `i16`;
the baseline inputs evaluated here stay far inside its range.) -/
def dc_decode (ht : List (Nat × List Bool)) (sum : Int) (scan : List Bool)
    (offset : Nat) : Outcome (Int × Nat) :=
  obind (entropy_decode_category scan offset ht) fun c =>
  obind (entropy_decode_value scan c.2 c.1) fun v =>
  .ok (sum + v.1, v.2)

/-- The zero-run writes of `AcDecoder::decode`: each of `n` zeros needs
`idx < du.len()`. -/
def acWriteZeros (du : List Int) (idx : Nat) : Nat → Outcome (List Int × Nat)
  | 0 => .ok (du, idx)
  | n + 1 =>
    if du.length ≤ idx then .err .invalidData
    else acWriteZeros (du.set idx 0) (idx + 1) n

/-- The symbol loop of `AcDecoder::decode` (decode_step2.rs): EOB zeroes
the rest of the DU; `0xF0`'s high nibble writes 16 zeros; otherwise the
high nibble is the zero run and the low nibble the category of the next
value.  The index strictly increases, so `du.len() + 1` fuel suffices. -/
def ac_decode_loop (ht : List (Nat × List Bool)) (scan : List Bool) :
    Nat → Nat → Nat → List Int → Outcome (List Int × Nat)
  | 0, _, _, _ => .hang
  | fuel + 1, offset, idx, du =>
    if idx < du.length then
      obind (entropy_decode_category scan offset ht) fun s =>
      if s.1 = 0x00 then
        .ok ((List.range (du.length - idx)).foldl (fun d j => d.set (idx + j) 0) du, s.2)
      else
        obind (acWriteZeros du idx (s.1 >>> 4)) fun z =>
        if z.1.length ≤ z.2 then .err .invalidData
        else
          obind (entropy_decode_value scan s.2 (s.1 &&& 0x0F)) fun v =>
          ac_decode_loop ht scan fuel v.2 (z.2 + 1) (z.1.set z.2 v.1)
    else .ok (du, offset)

def ac_decode (ht : List (Nat × List Bool)) (scan : List Bool) (offset : Nat)
    (du : List Int) : Outcome (List Int × Nat) :=
  ac_decode_loop ht scan (du.length + 1) offset 1 du

structure DecodeZigzagMcuCollection where
  width : Nat
  height : Nat
  components : List Component
  zigzag_dus : List (List Int)
deriving DecidableEq, Repr

/-- The `H*V` consecutive DUs of one component inside an MCU: each DU is
a fresh `[0; 64]`, its DC slot from the differential decoder, its AC
slots from the AC decoder. -/
def decodeDusForComponent (c : Component) (scan : List Bool) :
    Nat → Int → Nat → List (List Int) → Outcome (List (List Int) × Int × Nat)
  | 0, sum, offset, acc => .ok (acc, sum, offset)
  | n + 1, sum, offset, acc =>
    obind (dc_decode c.dc_huffman_table sum scan offset) fun dc =>
    let du0 := (List.replicate 64 (0 : Int)).set 0 dc.1
    obind (ac_decode c.ac_huffman_table scan dc.2 du0) fun acr =>
    decodeDusForComponent c scan n dc.1 acr.2 (acc ++ [acr.1])

/-- One MCU: every component in order, each with its per-component DC
sum. -/
def decodeMcu (scan : List Bool) :
    List (Component × Int) → Nat → Outcome (List (List Int) × List Int × Nat)
  | [], offset => .ok ([], [], offset)
  | (c, sum) :: rest, offset =>
    let sf := c.horizontal_sampling_factor * c.vertical_sampling_factor
    obind (decodeDusForComponent c scan sf sum offset []) fun r =>
    obind (decodeMcu scan rest r.2.2) fun rr =>
    .ok (r.1 ++ rr.1, r.2.1 :: rr.2.1, rr.2.2)

/-- The `while offset < scan.len()` loop of `decode_step2`: one MCU per
iteration.  Each iteration of the source consumes at least one bit when
the components are nonempty; an empty component list would loop forever,
which the fuel maps to `Outcome.hang`. -/
def decodeScanLoop (scan : List Bool) (comps : List Component) :
    Nat → List Int → Nat → List (List Int) → Outcome (List (List Int))
  | 0, _, _, _ => .hang
  | fuel + 1, sums, offset, acc =>
    if offset < scan.length then
      obind (decodeMcu scan (comps.zip sums) offset) fun r =>
      decodeScanLoop scan comps fuel r.2.1 r.2.2 (acc ++ r.1)
    else .ok acc

/-- `decode_step2` (decode_step2.rs). -/
def decode_step2 (jpeg_data : CompleteJpegData) : Outcome DecodeZigzagMcuCollection :=
  obind (decodeScanLoop jpeg_data.scan jpeg_data.components (jpeg_data.scan.length + 1)
      (jpeg_data.components.map (fun _ => 0)) 0 []) fun dus =>
  .ok { width := jpeg_data.width, height := jpeg_data.height,
        components := jpeg_data.components, zigzag_dus := dus }

/-- `decode` (mod.rs): `decode_step1`, then `decode_step2`, then the
function body ends in `todo!()` — a panic — before any raster is
produced (its return type is `io::Result<()>`, not an image). -/
def decode (buf : List Nat) : Outcome Unit :=
  obind (decode_step1 buf) fun d =>
  obind (decode_step2 d) fun _ =>
  .panic

/-! ## Concrete decoder inputs used by the theorems -/

/-- An 8×8 all-`v` quantization table. -/
def qtConst (v : Nat) : List (List Nat) :=
  List.replicate 8 (List.replicate 8 v)

/-- A lone DQT segment (wire id 0, 8-bit precision, 64 one-entries) with
no SOI in front of it. -/
def noSoiDqtBytes : List Nat :=
  [0xFF, 0xDB, 0x00, 0x43, 0x00] ++ List.replicate 64 1

/-- A well-formed byte stream: SOI; a DQT carrying wire id 1 with all-7
entries; a DQT carrying wire id 0 with all-9 entries; SOF0 (8×8, three
1×1 components, all referencing `qt_id = 0`); a DC and an AC DHT (class
0 and 1, id 0, one 1-bit codeword); SOS binding ids 0; an empty scan;
EOI. -/
def jpegTwoDqtBytes : List Nat :=
  [0xFF, 0xD8]
  ++ ([0xFF, 0xDB, 0x00, 0x43, 0x01] ++ List.replicate 64 7)
  ++ ([0xFF, 0xDB, 0x00, 0x43, 0x00] ++ List.replicate 64 9)
  ++ [0xFF, 0xC0, 0x00, 0x11, 0x08, 0x00, 0x08, 0x00, 0x08, 0x03,
      0x01, 0x11, 0x00, 0x02, 0x11, 0x00, 0x03, 0x11, 0x00]
  ++ ([0xFF, 0xC4, 0x00, 0x14, 0x00, 1] ++ List.replicate 15 0 ++ [0x05])
  ++ ([0xFF, 0xC4, 0x00, 0x14, 0x10, 1] ++ List.replicate 15 0 ++ [0x05])
  ++ [0xFF, 0xDA, 0x00, 0x0C, 0x03, 0x01, 0x00, 0x02, 0x00, 0x03, 0x00,
      0x00, 0x3F, 0x00]
  ++ [0xFF, 0xD9]

/-- As `jpegTwoDqtBytes` but with every component's `qt_id` set to 1. -/
def jpegTwoDqtBytesQt1 : List Nat :=
  [0xFF, 0xD8]
  ++ ([0xFF, 0xDB, 0x00, 0x43, 0x01] ++ List.replicate 64 7)
  ++ ([0xFF, 0xDB, 0x00, 0x43, 0x00] ++ List.replicate 64 9)
  ++ [0xFF, 0xC0, 0x00, 0x11, 0x08, 0x00, 0x08, 0x00, 0x08, 0x03,
      0x01, 0x11, 0x01, 0x02, 0x11, 0x01, 0x03, 0x11, 0x01]
  ++ ([0xFF, 0xC4, 0x00, 0x14, 0x00, 1] ++ List.replicate 15 0 ++ [0x05])
  ++ ([0xFF, 0xC4, 0x00, 0x14, 0x10, 1] ++ List.replicate 15 0 ++ [0x05])
  ++ [0xFF, 0xDA, 0x00, 0x0C, 0x03, 0x01, 0x00, 0x02, 0x00, 0x03, 0x00,
      0x00, 0x3F, 0x00]
  ++ [0xFF, 0xD9]

/-- Projection used by the id-irrelevance lemma: forget the reader's
buffer, keep the values read and the final read position. -/
def oproj (o : Outcome (List Nat × ByteReader)) : Outcome (List Nat × Nat) :=
  obind o (fun q => .ok (q.1, q.2.rpos))

end Jpeglab

namespace Jpeglab

/-! # Theorems -/

theorem zigzagPositions_length : zigzagPositions.length = 64 := by decide

theorem zigzagPositions_nodup : zigzagPositions.Nodup := by decide

theorem zigzagPositions_mem : ∀ x < 8, ∀ y < 8, (x, y) ∈ zigzagPositions := by
  decide

/-- Applying the flat-array write fold: position `j` receives the value of
`m` at the `j`-th listed position, everything else keeps `acc`. -/
theorem writeFlat_fold (m : Nat × Nat → Int) :
    ∀ (l : List (Nat × Nat)) (n : Nat) (acc : Nat → Int) (j : Nat),
      ((List.enumFrom n l).foldl (fun acc pi => writeFlat acc pi.1 (m pi.2)) acc) j
        = if n ≤ j ∧ j < n + l.length then m (l.getD (j - n) (0, 0)) else acc j := by
  intro l
  induction l with
  | nil =>
    intro n acc j
    simp only [List.enumFrom, List.foldl_nil, List.length_nil, Nat.add_zero]
    split
    · next h => exact absurd h (by omega)
    · rfl
  | cons p rest ih =>
    intro n acc j
    simp only [List.enumFrom, List.foldl_cons, List.length_cons]
    rw [ih]
    by_cases h1 : n + 1 ≤ j ∧ j < n + 1 + rest.length
    · have hj : n ≤ j ∧ j < n + (rest.length + 1) := by omega
      simp only [if_pos h1, if_pos hj]
      have hsub : j - n = (j - (n + 1)) + 1 := by omega
      simp [hsub]
    · simp only [if_neg h1, writeFlat]
      by_cases h2 : j = n
      · have hj : n ≤ j ∧ j < n + (rest.length + 1) := by omega
        have hd : j - n = 0 := by omega
        simp [h2, hj, hd]
      · have hj : ¬(n ≤ j ∧ j < n + (rest.length + 1)) := by omega
        simp [h2, hj]

/-- A position absent from the list keeps its accumulator value through the
matrix write fold. -/
theorem writeMat_fold_notMem (z : Nat → Int) :
    ∀ (l : List (Nat × Nat)) (q : Nat × Nat), q ∉ l →
      ∀ (n : Nat) (acc : Nat × Nat → Int),
        ((List.enumFrom n l).foldl (fun acc pi => writeMat acc pi.2 (z pi.1)) acc) q
          = acc q := by
  intro l
  induction l with
  | nil => intro q _ n acc; simp
  | cons p rest ih =>
    intro q hq n acc
    have hq1 : q ≠ p := fun h => hq (h ▸ List.mem_cons_self p rest)
    have hq2 : q ∉ rest := fun h => hq (List.mem_cons_of_mem _ h)
    simp only [List.enumFrom, List.foldl_cons]
    rw [ih q hq2]
    simp [writeMat, hq1]

/-- Applying the matrix write fold over a duplicate-free position list:
the `i`-th listed position receives `z` at index `n + i`. -/
theorem writeMat_fold (z : Nat → Int) :
    ∀ (l : List (Nat × Nat)), l.Nodup →
      ∀ (i : Nat), i < l.length →
        ∀ (n : Nat) (acc : Nat × Nat → Int),
          ((List.enumFrom n l).foldl (fun acc pi => writeMat acc pi.2 (z pi.1)) acc)
              (l.getD i (0, 0))
            = z (n + i) := by
  intro l
  induction l with
  | nil => intro _ i hi; simp at hi
  | cons p rest ih =>
    intro hnd i hi n acc
    simp only [List.enumFrom, List.foldl_cons]
    match i with
    | 0 =>
      have hp : p ∉ rest := (List.nodup_cons.mp hnd).1
      simp only [List.getD_cons_zero]
      rw [writeMat_fold_notMem z rest p hp]
      simp [writeMat]
    | i + 1 =>
      have hnd' : rest.Nodup := hnd.of_cons
      have hi' : i < rest.length := by
        simp at hi; omega
      simp only [List.getD_cons_succ]
      rw [ih hnd' i hi']
      have h : n + 1 + i = n + (i + 1) := by omega
      rw [h]

/-- Evaluating `zigzag` at a flat index below 64 reads the matrix at the
corresponding zigzag position. -/
theorem zigzag_apply (m : Nat × Nat → Int) (i : Nat) (hi : i < 64) :
    zigzag m i = m (zigzagPositions.getD i (0, 0)) := by
  have hlen : (0 : Nat) ≤ i ∧ i < 0 + zigzagPositions.length := by
    rw [zigzagPositions_length]; omega
  have h := writeFlat_fold m zigzagPositions 0 (fun _ => 0) i
  simp only [zigzag, List.enum]
  rw [h, if_pos hlen]
  simp

/-- Evaluating `to_quantized_du` at the `i`-th zigzag position reads the
flat array at index `i`. -/
theorem to_quantized_du_apply (z : Nat → Int) (i : Nat) (hi : i < 64) :
    to_quantized_du z (zigzagPositions.getD i (0, 0)) = z i := by
  have hlen : i < zigzagPositions.length := by
    rw [zigzagPositions_length]; omega
  have h := writeMat_fold z zigzagPositions zigzagPositions_nodup i hlen 0 (fun _ => 0)
  simp only [to_quantized_du, List.enum]
  rw [h, Nat.zero_add]

/-- C2: for every 8×8 matrix, `QuantizedDu::zigzag` followed by
`ZigzagDu::to_quantized_du` restores every entry; and for every flat
64-array, the two maps composed the other way round restore every entry —
the zigzag traversal shared by the two functions is a bijection on the 64
positions and the functions are mutually inverse. -/
theorem c2_zigzag_roundtrip :
    (∀ (m : Nat × Nat → Int) (x y : Nat), x < 8 → y < 8 →
        to_quantized_du (zigzag m) (x, y) = m (x, y))
    ∧ (∀ (z : Nat → Int) (i : Nat), i < 64 →
        zigzag (to_quantized_du z) i = z i) := by
  constructor
  · intro m x y hx hy
    obtain ⟨i, hi, hgi⟩ := List.getElem_of_mem (zigzagPositions_mem x hx y hy)
    have hi64 : i < 64 := by rw [zigzagPositions_length] at hi; exact hi
    have hgd : zigzagPositions.getD i (0, 0) = (x, y) := by
      rw [List.getD_eq_getElem zigzagPositions (0, 0) hi, hgi]
    rw [← hgd, to_quantized_du_apply (zigzag m) i hi64, zigzag_apply m i hi64, hgd]
  · intro z i hi
    rw [zigzag_apply (to_quantized_du z) i hi, to_quantized_du_apply z i hi]

/-- Closed witness for `c2_zigzag_roundtrip` at a concrete matrix, a
concrete flat array and concrete in-range indices. -/
theorem c2_zigzag_roundtrip_witness :
    (3 < 8 ∧ 4 < 8 ∧ (10 : Nat) < 64)
    ∧ to_quantized_du (zigzag (fun p => (8 * p.1 + p.2 : Int))) (3, 4)
        = (fun (p : Nat × Nat) => (8 * p.1 + p.2 : Int)) (3, 4)
    ∧ zigzag (to_quantized_du (fun i => (i * i : Int))) 10
        = (fun (i : Nat) => (i * i : Int)) 10 :=
  ⟨⟨by decide, by decide, by decide⟩,
    c2_zigzag_roundtrip.1 (fun p => (8 * p.1 + p.2 : Int)) 3 4 (by decide) (by decide),
    c2_zigzag_roundtrip.2 (fun i => (i * i : Int)) 10 (by decide)⟩

/-! ### Bit-string arithmetic -/

theorem lsbBits_length (a n : Nat) : (lsbBits a n).length = n := by
  simp [lsbBits]

theorem codeBits_length (c len : Nat) : (codeBits c len).length = len := by
  simp [codeBits, lsbBits]

theorem lsbBits_succ (a n : Nat) : lsbBits a (n + 1) = lsbBits a n ++ [a.testBit n] := by
  simp [lsbBits, List.range_succ]

theorem codeBits_succ (c n : Nat) : codeBits c (n + 1) = c.testBit n :: codeBits c n := by
  simp [codeBits, lsbBits_succ]

theorem loadLsb_append_bit (l : List Bool) (b : Bool) :
    loadLsb (l ++ [b]) = loadLsb l + b.toNat * 2 ^ l.length := by
  induction l with
  | nil => simp [loadLsb]
  | cons c l ih =>
    have h : (c :: l) ++ [b] = c :: (l ++ [b]) := rfl
    rw [h]
    simp only [loadLsb, List.length_cons]
    rw [ih]
    ring

theorem toNat_testBit_div_mod (a n : Nat) : (a.testBit n).toNat = a / 2 ^ n % 2 := by
  rw [Nat.testBit_to_div_mod]
  rcases Nat.mod_two_eq_zero_or_one (a / 2 ^ n) with h | h <;> simp [h]

theorem mod_two_pow_succ (a n : Nat) :
    a % 2 ^ (n + 1) = a % 2 ^ n + 2 ^ n * (a / 2 ^ n % 2) := by
  have hd : a = 2 ^ n * (a / 2 ^ n) + a % 2 ^ n := (Nat.div_add_mod a (2 ^ n)).symm
  have hq : a / 2 ^ n = 2 * (a / 2 ^ n / 2) + a / 2 ^ n % 2 :=
    (Nat.div_add_mod (a / 2 ^ n) 2).symm
  have hlt : 2 ^ n * (a / 2 ^ n % 2) + a % 2 ^ n < 2 ^ (n + 1) := by
    have h1 : a / 2 ^ n % 2 ≤ 1 := by omega
    have h2 : a % 2 ^ n < 2 ^ n := Nat.mod_lt _ (Nat.pos_pow_of_pos n (by omega))
    have h3 : 2 ^ (n + 1) = 2 ^ n * 2 := by ring
    have h4 : 2 ^ n * (a / 2 ^ n % 2) ≤ 2 ^ n * 1 := Nat.mul_le_mul_left _ h1
    omega
  calc a % 2 ^ (n + 1)
      = (2 ^ n * (a / 2 ^ n) + a % 2 ^ n) % 2 ^ (n + 1) := by rw [← hd]
    _ = (2 ^ (n + 1) * (a / 2 ^ n / 2) + (2 ^ n * (a / 2 ^ n % 2) + a % 2 ^ n))
          % 2 ^ (n + 1) := by
        congr 1
        calc 2 ^ n * (a / 2 ^ n) + a % 2 ^ n
            = 2 ^ n * (2 * (a / 2 ^ n / 2) + a / 2 ^ n % 2) + a % 2 ^ n := by rw [← hq]
          _ = 2 ^ (n + 1) * (a / 2 ^ n / 2) + (2 ^ n * (a / 2 ^ n % 2) + a % 2 ^ n) := by
              ring
    _ = (2 ^ n * (a / 2 ^ n % 2) + a % 2 ^ n) % 2 ^ (n + 1) := Nat.mul_add_mod _ _ _
    _ = 2 ^ n * (a / 2 ^ n % 2) + a % 2 ^ n := Nat.mod_eq_of_lt hlt
    _ = a % 2 ^ n + 2 ^ n * (a / 2 ^ n % 2) := by ring

theorem loadLsb_lsbBits (a n : Nat) : loadLsb (lsbBits a n) = a % 2 ^ n := by
  induction n with
  | zero => simp [lsbBits, loadLsb, Nat.mod_one]
  | succ n ih =>
    rw [lsbBits_succ, loadLsb_append_bit, ih, lsbBits_length,
      toNat_testBit_div_mod, mod_two_pow_succ]
    ring

theorem bitsVal_codeBits (c n : Nat) : bitsVal (codeBits c n) = c % 2 ^ n := by
  induction n with
  | zero => simp [codeBits, lsbBits, bitsVal, Nat.mod_one]
  | succ n ih =>
    rw [codeBits_succ]
    simp only [bitsVal, codeBits_length, ih, toNat_testBit_div_mod, mod_two_pow_succ]
    ring

/-! ### Characterization of `get_category` -/

/-- The MSB-first `first_one` search over `n` bits finds the bit length of
the operand. -/
theorem findIdx?_msb :
    ∀ (n a s : Nat), 0 < s → s ≤ n → 2 ^ (s - 1) ≤ a → a < 2 ^ s →
      (List.range n).findIdx? (fun i => a.testBit (n - 1 - i)) = some (n - s) := by
  intro n
  induction n with
  | zero => intro a s h1 h2; omega
  | succ n ih =>
    intro a s h1 h2 hlo hhi
    rw [List.range_succ_eq_map, List.findIdx?_cons, List.findIdx?_succ, List.findIdx?_map]
    by_cases hs : s = n + 1
    · have hbit : a.testBit n = true := by
        rw [Nat.testBit_to_div_mod]
        have hdiv : a / 2 ^ n = 1 := by
          apply Nat.div_eq_of_lt_le
          · simpa [hs] using hlo
          · have : a < 2 ^ (n + 1) := hs ▸ hhi
            calc a < 2 ^ (n + 1) := this
              _ = (1 + 1) * 2 ^ n := by ring
        simp [hdiv]
      simp [hbit, hs]
    · have hsn : s ≤ n := by omega
      have hbit : a.testBit n = false := by
        apply Nat.testBit_lt_two_pow
        calc a < 2 ^ s := hhi
          _ ≤ 2 ^ n := Nat.pow_le_pow_right (by omega) hsn
      have hcomp : ((fun i => a.testBit (n + 1 - 1 - i)) ∘ Nat.succ)
          = fun i => a.testBit (n - 1 - i) := by
        funext i
        simp only [Function.comp]
        congr 1
        omega
      rw [if_neg (by simp [hbit]), hcomp, ih a s h1 hsn hlo hhi]
      show some (n - s + 1) = some (n + 1 - s)
      congr 1
      omega

theorem get_category_zero : get_category 0 = 0 := by decide

theorem get_category_pos (a : Nat) (h0 : a ≠ 0) (ha : a < 2 ^ 16) :
    get_category a = Nat.log2 a + 1 := by
  have hlo : 2 ^ (Nat.log2 a + 1 - 1) ≤ a := by
    simpa using Nat.log2_self_le h0
  have hhi : a < 2 ^ (Nat.log2 a + 1) := Nat.lt_log2_self
  have hle : Nat.log2 a + 1 ≤ 16 := by
    have h1 : 2 ^ Nat.log2 a < 2 ^ 16 := lt_of_le_of_lt (Nat.log2_self_le h0) ha
    have h2 : Nat.log2 a < 16 := (Nat.pow_lt_pow_iff_right (by omega)).mp h1
    omega
  have hf := findIdx?_msb 16 a (Nat.log2 a + 1) (by omega) hle hlo hhi
  unfold get_category
  rw [List.findIdx?_map]
  have hcomp : ((fun b : Bool => b) ∘ fun i => a.testBit (15 - i))
      = fun i => a.testBit (16 - 1 - i) := by
    funext i; simp [Function.comp]
  rw [hcomp, hf]
  show 16 - 1 - (16 - (Nat.log2 a + 1)) + 1 = Nat.log2 a + 1
  omega

/-- Bounds packaged for the round-trip proof: for `0 < a < 2 ^ 16` the
category is the bit length of `a`. -/
theorem get_category_bounds (a : Nat) (h0 : a ≠ 0) (ha : a < 2 ^ 16) :
    get_category a ≠ 0 ∧ 2 ^ (get_category a - 1) ≤ a ∧ a < 2 ^ get_category a := by
  rw [get_category_pos a h0 ha]
  refine ⟨by omega, ?_, Nat.lt_log2_self⟩
  simpa using Nat.log2_self_le h0

/-! ### C4: the VLI round-trip -/

/-- Evaluation of `entropy_decode_value` when handed exactly the encoded
window: the sign is read off the leading bit, then the (possibly
complemented) reversed window is loaded LSB-first. -/
theorem entropy_decode_value_eval (eb : List Bool) (c : Nat)
    (hc0 : c ≠ 0) (hc15 : c ≤ 15) (hlen : eb.length = c) :
    entropy_decode_value eb 0 c
      = .ok ((if eb.headD false then (loadLsb eb.reverse : Int)
              else -(loadLsb ((eb.reverse).map (fun b => !b)) : Int)), 0 + c) := by
  have hshift : c >>> 4 = 0 := by
    rw [Nat.shiftRight_eq_div_pow]
    exact Nat.div_eq_of_lt (by omega)
  simp only [entropy_decode_value]
  rw [if_neg (by simp [hshift]), if_neg hc0, if_pos (by omega)]
  rw [List.drop_zero, ← hlen, List.take_length]
  rcases eb with _ | ⟨b, t⟩
  · simp
  · by_cases hb : b <;> simp [hb]

/-- C4: for every integer `v` with `−32767 ≤ v ≤ 32767`, decoding the
value bits produced by the encoder (`entropy_encode_value_bits`) at the
encoder's category (`get_category |v|`) with `entropy_decode_value`
recovers `v` exactly and consumes exactly `category` bits; category 0
encodes only `v = 0`, and `v = 0` carries zero value-bits. -/
theorem c4_vli_roundtrip (v : Int) (h1 : -32767 ≤ v) (h2 : v ≤ 32767) :
    entropy_decode_value (entropy_encode_value_bits v) 0 (get_category v.natAbs)
        = .ok (v, 0 + get_category v.natAbs)
    ∧ (get_category v.natAbs = 0 ↔ v = 0)
    ∧ (v = 0 → entropy_encode_value_bits v = []) := by
  rcases eq_or_ne v 0 with h0 | h0
  · subst h0
    refine ⟨by decide, by decide, fun _ => by decide⟩
  · have ha0 : v.natAbs ≠ 0 := by
      intro h; exact h0 (by omega)
    have ha15 : v.natAbs ≤ 32767 := by omega
    have ha16 : v.natAbs < 2 ^ 16 := by omega
    obtain ⟨hc0, hlo, hhi⟩ := get_category_bounds v.natAbs ha0 ha16
    have hc15 : get_category v.natAbs ≤ 15 := by
      by_contra hgt
      have h215 : (2 : Nat) ^ 15 ≤ 2 ^ (get_category v.natAbs - 1) :=
        Nat.pow_le_pow_right (by omega) (by omega)
      have : (2 : Nat) ^ 15 = 32768 := by norm_num
      omega
    set a := v.natAbs with hadef
    set c := get_category a with hcdef
    refine ⟨?_, ⟨fun h => absurd h hc0, fun h => absurd h h0⟩, fun h => absurd h h0⟩
    have hcsucc : c = (c - 1) + 1 := by omega
    have hmsb : a.testBit (c - 1) = true := by
      rw [Nat.testBit_to_div_mod]
      have hdiv : a / 2 ^ (c - 1) = 1 := by
        apply Nat.div_eq_of_lt_le
        · simpa using hlo
        · have h2c : ((1 : Nat) + 1) * 2 ^ (c - 1) = 2 ^ c := by
            conv_rhs => rw [hcsucc]
            rw [pow_succ]
            ring
          omega
      simp [hdiv]
    have hrevcons : (lsbBits a c).reverse
        = a.testBit (c - 1) :: (lsbBits a (c - 1)).reverse := by
      conv_lhs => rw [hcsucc, lsbBits_succ]
      simp
    have hload : loadLsb (lsbBits a c) = a := by
      rw [loadLsb_lsbBits]
      exact Nat.mod_eq_of_lt hhi
    rcases lt_or_gt_of_ne h0 with hneg | hpos
    · -- v < 0: bits are complemented, head bit reads 0
      have hvb : entropy_encode_value_bits v = ((lsbBits a c).reverse).map (fun b => !b) := by
        simp only [entropy_encode_value_bits]
        rw [← hadef, ← hcdef, if_neg (by omega)]
      have hlen : (entropy_encode_value_bits v).length = c := by
        rw [hvb]; simp [lsbBits_length]
      rw [entropy_decode_value_eval _ c hc0 hc15 hlen]
      have hhead : (entropy_encode_value_bits v).headD false = false := by
        rw [hvb, hrevcons, hmsb]
        simp
      rw [hhead]
      have habs : ((entropy_encode_value_bits v).reverse).map (fun b => !b) = lsbBits a c := by
        rw [hvb, ← List.map_reverse, List.reverse_reverse, List.map_map]
        have hid : ((fun b : Bool => !b) ∘ fun b : Bool => !b) = id := by
          funext b; simp
        rw [hid, List.map_id]
      rw [habs, hload]
      have hval : -(a : Int) = v := by omega
      simp [hval]
    · -- v > 0: bits are the plain MSB-first window, head bit reads 1
      have hvb : entropy_encode_value_bits v = (lsbBits a c).reverse := by
        simp only [entropy_encode_value_bits]
        rw [← hadef, ← hcdef, if_pos (by omega)]
      have hlen : (entropy_encode_value_bits v).length = c := by
        rw [hvb]; simp [lsbBits_length]
      rw [entropy_decode_value_eval _ c hc0 hc15 hlen]
      have hhead : (entropy_encode_value_bits v).headD false = true := by
        rw [hvb, hrevcons, hmsb]
        simp
      rw [hhead]
      have habs : (entropy_encode_value_bits v).reverse = lsbBits a c := by
        rw [hvb, List.reverse_reverse]
      rw [habs, hload]
      have hval : (a : Int) = v := by omega
      simp [hval]

/-- Closed witness for `c4_vli_roundtrip` at `v = -5`. -/
theorem c4_vli_roundtrip_witness :
    (-32767 ≤ (-5 : Int) ∧ (-5 : Int) ≤ 32767)
    ∧ (entropy_decode_value (entropy_encode_value_bits (-5)) 0 (get_category (-5 : Int).natAbs)
          = .ok (-5, 0 + get_category (-5 : Int).natAbs)
        ∧ (get_category (-5 : Int).natAbs = 0 ↔ (-5 : Int) = 0)
        ∧ ((-5 : Int) = 0 → entropy_encode_value_bits (-5) = [])) :=
  ⟨⟨by decide, by decide⟩, c4_vli_roundtrip (-5) (by decide) (by decide)⟩

/-! ### C3: canonical Huffman code generation -/

theorem genRow_eq :
    ∀ (k c len : Nat), genRow c len k = (List.range k).map (fun j => codeBits (c + j) len) := by
  intro k
  induction k with
  | zero => intro c len; simp [genRow]
  | succ k ih =>
    intro c len
    rw [List.range_succ_eq_map]
    simp only [genRow, List.map_cons, List.map_map]
    congr 1
    rw [ih (c + 1) len]
    apply List.map_congr_left
    intro a _
    simp only [Function.comp]
    congr 1
    omega

/-- MSB-first bit strings split at any point: the first `l1` bits read the
shifted value, the trailing `d` bits the low part. -/
theorem codeBits_add :
    ∀ (l1 d v : Nat), codeBits v (l1 + d) = codeBits (v >>> d) l1 ++ codeBits v d := by
  intro l1
  induction l1 with
  | zero =>
    intro d v
    have h : 0 + d = d := by omega
    rw [h]
    have h0 : codeBits (v >>> d) 0 = [] := by simp [codeBits, lsbBits]
    rw [h0, List.nil_append]
  | succ l1 ih =>
    intro d v
    have h : l1 + 1 + d = (l1 + d) + 1 := by omega
    rw [h, codeBits_succ, ih, codeBits_succ, List.cons_append]
    congr 1
    rw [Nat.testBit_shiftRight]
    congr 1
    omega

/-- If one codeword is a prefix of a longer one, the longer one's value
shifted down agrees with the shorter one's value. -/
theorem codeBits_prefix_val (l1 d v1 v2 : Nat)
    (h : codeBits v1 l1 <+: codeBits v2 (l1 + d)) :
    v1 % 2 ^ l1 = (v2 >>> d) % 2 ^ l1 := by
  rw [codeBits_add] at h
  obtain ⟨t, ht⟩ := h
  have hinj := List.append_inj ht (by rw [codeBits_length, codeBits_length])
  have h2 := congrArg bitsVal hinj.1
  rwa [bitsVal_codeBits, bitsVal_codeBits] at h2

/-- Two distinct code values below `2^len` at the same length satisfy
`HuffRel` in value order. -/
theorem huffRel_same_level (len c i j k : Nat) (hij : i < j) (hjk : j < k)
    (hck : c + k ≤ 2 ^ len) :
    HuffRel (codeBits (c + i) len) (codeBits (c + j) len) := by
  have hi : c + i < 2 ^ len := by omega
  have hj : c + j < 2 ^ len := by omega
  have hkey : ∀ x y : Nat, x < 2 ^ len → y < 2 ^ len →
      codeBits x len <+: codeBits y len → x = y := by
    intro x y hx hy hpre
    have h0 : codeBits y len = codeBits y (len + 0) := by norm_num
    rw [h0] at hpre
    have hval := codeBits_prefix_val len 0 x y hpre
    simp only [Nat.shiftRight_zero] at hval
    rwa [Nat.mod_eq_of_lt hx, Nat.mod_eq_of_lt hy] at hval
  refine ⟨?_, ?_, ?_⟩
  · intro h
    have := hkey _ _ hi hj h
    omega
  · intro h
    have := hkey _ _ hj hi h
    omega
  · intro _
    rw [bitsVal_codeBits, bitsVal_codeBits, Nat.mod_eq_of_lt hi, Nat.mod_eq_of_lt hj]
    omega

/-- A codeword of the current row is never in prefix relation with any
codeword generated at a strictly larger length, thanks to the canonical
left shift between lengths. -/
theorem huffRel_of_lt_level (len j c k : Nat) (hjk : j < k) (hck : c + k ≤ 2 ^ len)
    (b : List Bool) (hblen : len + 1 ≤ b.length)
    (hbv : bitsVal b < 2 ^ b.length)
    (hblow : (c + k) * 2 * 2 ^ (b.length - (len + 1)) ≤ bitsVal b)
    (hbcode : b = codeBits (bitsVal b) b.length) :
    HuffRel (codeBits (c + j) len) b := by
  have hlenc := codeBits_length (c + j) len
  have hd1 : 1 ≤ b.length - len := by omega
  have hlb : b.length = len + (b.length - len) := by omega
  have hcjlt : c + j < 2 ^ len := by omega
  refine ⟨?_, ?_, ?_⟩
  · intro hpre
    set d := b.length - len with hddef
    have hpre2 : codeBits (c + j) len <+: codeBits (bitsVal b) (len + d) := by
      rw [← hlb, ← hbcode]
      exact hpre
    have hval := codeBits_prefix_val len d (c + j) (bitsVal b) hpre2
    rw [Nat.mod_eq_of_lt hcjlt] at hval
    have hdivlt : bitsVal b >>> d < 2 ^ len := by
      rw [Nat.shiftRight_eq_div_pow]
      apply Nat.div_lt_of_lt_mul
      rw [← pow_add, show d + len = b.length by omega]
      exact hbv
    rw [Nat.mod_eq_of_lt hdivlt] at hval
    have hge : (c + j + 1) * 2 ^ d ≤ bitsVal b := by
      have e2 : b.length - (len + 1) = d - 1 := by omega
      have e3 : (2 : Nat) * 2 ^ (d - 1) = 2 ^ d := by
        conv_rhs => rw [show d = (d - 1) + 1 by omega]
        rw [pow_succ]
        ring
      have e1 : (c + k) * 2 * 2 ^ (b.length - (len + 1)) = (c + k) * 2 ^ d := by
        rw [e2]
        calc (c + k) * 2 * 2 ^ (d - 1) = (c + k) * (2 * 2 ^ (d - 1)) := by ring
          _ = (c + k) * 2 ^ d := by rw [e3]
      calc (c + j + 1) * 2 ^ d ≤ (c + k) * 2 ^ d :=
            Nat.mul_le_mul_right _ (by omega)
        _ = (c + k) * 2 * 2 ^ (b.length - (len + 1)) := e1.symm
        _ ≤ bitsVal b := hblow
    have hdiv : c + j + 1 ≤ bitsVal b / 2 ^ d :=
      (Nat.le_div_iff_mul_le (Nat.pos_pow_of_pos d (by omega))).mpr hge
    rw [Nat.shiftRight_eq_div_pow] at hval
    omega
  · intro hpre
    have hple := hpre.length_le
    rw [hlenc] at hple
    omega
  · intro hleneq
    rw [hlenc] at hleneq
    omega

/-- Structure of the canonical generation loop: under the Kraft
invariant, every emitted codeword is an exact `len`-or-longer bit string
with the canonical lower bound on its value, the emitted list is
pairwise `HuffRel`, and its `(length, value)` image is the canonical
code list. -/
theorem generateBitsAux_spec :
    ∀ (ks : List Nat) (c len : Nat), kraftInv c len ks →
      (∀ cw ∈ generateBitsAux c len ks,
          len ≤ cw.length ∧ bitsVal cw < 2 ^ cw.length ∧
          c * 2 ^ (cw.length - len) ≤ bitsVal cw ∧
          cw = codeBits (bitsVal cw) cw.length)
      ∧ List.Pairwise HuffRel (generateBitsAux c len ks)
      ∧ (generateBitsAux c len ks).map (fun cw => (cw.length, bitsVal cw))
          = canonicalCodes c len ks := by
  intro ks
  induction ks with
  | nil =>
    intro c len _
    refine ⟨?_, ?_, ?_⟩ <;> simp [generateBitsAux, canonicalCodes]
  | cons k rest ih =>
    intro c len hk
    obtain ⟨hck, hrest⟩ := hk
    obtain ⟨ihElem, ihPW, ihMap⟩ := ih ((c + k) * 2) (len + 1) hrest
    have hrowmem : ∀ cw ∈ genRow c len k, ∃ j, j < k ∧ cw = codeBits (c + j) len := by
      intro cw hcw
      rw [genRow_eq] at hcw
      obtain ⟨j, hj, hje⟩ := List.mem_map.mp hcw
      exact ⟨j, List.mem_range.mp hj, hje.symm⟩
    have hrowval : ∀ j, j < k → bitsVal (codeBits (c + j) len) = c + j := by
      intro j hj
      rw [bitsVal_codeBits]
      exact Nat.mod_eq_of_lt (by omega)
    -- the element facts for the whole list
    have hElem : ∀ cw ∈ generateBitsAux c len (k :: rest),
        len ≤ cw.length ∧ bitsVal cw < 2 ^ cw.length ∧
        c * 2 ^ (cw.length - len) ≤ bitsVal cw ∧
        cw = codeBits (bitsVal cw) cw.length := by
      intro cw hcw
      rw [show generateBitsAux c len (k :: rest)
            = genRow c len k ++ generateBitsAux ((c + k) * 2) (len + 1) rest from rfl] at hcw
      rcases List.mem_append.mp hcw with hmem | hmem
      · obtain ⟨j, hj, hje⟩ := hrowmem cw hmem
        subst hje
        have hval := hrowval j hj
        have hlen := codeBits_length (c + j) len
        refine ⟨by omega, ?_, ?_, ?_⟩
        · rw [hval, hlen]
          omega
        · rw [hval, hlen]
          simp
        · rw [hval, hlen]
      · obtain ⟨h1, h2, h3, h4⟩ := ihElem cw hmem
        refine ⟨by omega, h2, ?_, h4⟩
        have e1 : c * 2 ^ (cw.length - len) ≤ (c + k) * 2 * 2 ^ (cw.length - (len + 1)) := by
          have e2 : cw.length - len = (cw.length - (len + 1)) + 1 := by omega
          rw [e2, pow_succ]
          calc c * (2 ^ (cw.length - (len + 1)) * 2)
              = c * 2 * 2 ^ (cw.length - (len + 1)) := by ring
            _ ≤ (c + k) * 2 * 2 ^ (cw.length - (len + 1)) := by
                apply Nat.mul_le_mul_right
                omega
        omega
    refine ⟨hElem, ?_, ?_⟩
    · -- pairwise
      rw [show generateBitsAux c len (k :: rest)
            = genRow c len k ++ generateBitsAux ((c + k) * 2) (len + 1) rest from rfl]
      rw [List.pairwise_append]
      refine ⟨?_, ihPW, ?_⟩
      · rw [genRow_eq, List.pairwise_map]
        apply List.Pairwise.imp_of_mem ?_ (List.pairwise_lt_range k)
        intro i j hi hj hij
        exact huffRel_same_level len c i j k hij (List.mem_range.mp hj) hck
      · intro a ha b hb
        obtain ⟨j, hj, hje⟩ := hrowmem a ha
        obtain ⟨h1, h2, h3, h4⟩ := ihElem b hb
        subst hje
        exact huffRel_of_lt_level len j c k hj hck b h1 h2 h3 h4
    · -- the (length, value) image
      rw [show generateBitsAux c len (k :: rest)
            = genRow c len k ++ generateBitsAux ((c + k) * 2) (len + 1) rest from rfl]
      rw [show canonicalCodes c len (k :: rest)
            = ((List.range k).map (fun j => (len, c + j)))
                ++ canonicalCodes ((c + k) * 2) (len + 1) rest from rfl]
      rw [List.map_append, ihMap]
      congr 1
      rw [genRow_eq, List.map_map]
      apply List.map_congr_left
      intro j hj
      have hjk := List.mem_range.mp hj
      simp only [Function.comp]
      rw [codeBits_length, hrowval j hjk]

/-- The claim's Kraft condition implies the loop invariant. -/
theorem kraftInv_of_kraftSum :
    ∀ (ks : List Nat) (c len : Nat),
      c * 2 ^ (ks.length - 1) + kraftSum ks ≤ 2 ^ (len + ks.length - 1) →
      kraftInv c len ks := by
  intro ks
  induction ks with
  | nil => intro c len _; trivial
  | cons k rest ih =>
    intro c len h
    simp only [kraftSum, List.length_cons] at h
    have hm : rest.length + 1 - 1 = rest.length := by omega
    have hexp : len + (rest.length + 1) - 1 = len + rest.length := by omega
    rw [hm, hexp] at h
    have hpow : (0 : Nat) < 2 ^ rest.length := Nat.pos_pow_of_pos _ (by omega)
    constructor
    · have h1 : (c + k) * 2 ^ rest.length ≤ 2 ^ len * 2 ^ rest.length := by
        have h2 : (c + k) * 2 ^ rest.length
            = c * 2 ^ rest.length + k * 2 ^ rest.length := by ring
        have h3 : 2 ^ len * 2 ^ rest.length = 2 ^ (len + rest.length) := by
          rw [← pow_add]
        omega
      exact Nat.le_of_mul_le_mul_right h1 hpow
    · cases rest with
      | nil => trivial
      | cons r rs =>
        apply ih
        simp only [kraftSum, List.length_cons] at h ⊢
        have hm2 : rs.length + 1 - 1 = rs.length := by omega
        have hexp2 : len + 1 + (rs.length + 1) - 1 = len + (rs.length + 1) := by omega
        rw [hm2, hexp2]
        have e1 : (c + k) * 2 * 2 ^ rs.length = c * 2 ^ (rs.length + 1) + k * 2 ^ (rs.length + 1) := by
          rw [pow_succ]
          ring
        have e2 : len + (rs.length + 1) = len + rs.length + 1 := by omega
        omega

/-- C3: for every valid `code_lengths` (16 entries, Kraft sum at most 1),
`generate_bits` emits exactly the canonical code list — value starting at
0, incremented once per symbol, shifted left between lengths, emitted as
an exact big-endian bit string of the symbol's length — the emitted
codewords are prefix-free and strictly ascending within each length, and
`to_cached` pairs the `i`-th codeword with `values[i]`. -/
theorem c3_generate_bits_canonical (codes : List Nat) (h16 : codes.length = 16)
    (hK : kraftSum codes ≤ 2 ^ 16) :
    List.Pairwise HuffRel (generate_bits codes)
    ∧ (generate_bits codes).map (fun cw => (cw.length, bitsVal cw))
        = canonicalCodes 0 1 codes
    ∧ ∀ values, to_cached ⟨codes, values⟩ = values.zip (generate_bits codes) := by
  have hinv : kraftInv 0 1 codes := by
    apply kraftInv_of_kraftSum
    rw [h16]
    simpa using hK
  obtain ⟨_, hpw, hmap⟩ := generateBitsAux_spec codes 0 1 hinv
  exact ⟨hpw, hmap, fun _ => rfl⟩

/-! ### C5: the AC encoder's ZRL and EOB behaviour -/

theorem ac_flush_false_eq (t : Nat → List Bool) (r : Nat) :
    ac_flush_false t r
      = (r % 16, (List.replicate (r / 16) (entropy_encode_category t 0 (some 15))).flatten) := by
  induction r using Nat.strong_induction_on with
  | _ r ih =>
    rw [ac_flush_false]
    by_cases h : 16 ≤ r
    · rw [dif_pos h, ih (r - 16) (by omega)]
      have hdiv : r / 16 = (r - 16) / 16 + 1 := by omega
      have hmod : (r - 16) % 16 = r % 16 := by omega
      simp only [hmod, hdiv, List.replicate_succ, List.flatten_cons]
    · rw [dif_neg h]
      have hdiv : r / 16 = 0 := by omega
      have hmod : r % 16 = r := by omega
      rw [hdiv, hmod]
      simp

theorem ac_encode_du_fold (t : Nat → List Bool) :
    ∀ (acs : List Int) (r : Nat) (acc : List Bool),
      (acs.foldl (ac_step t) (r, acc)).2
          ++ ac_flush_true t (acs.foldl (ac_step t) (r, acc)).1
        = acc ++ ac_run_spec t acs r := by
  intro acs
  induction acs with
  | nil =>
    intro r acc
    simp only [List.foldl_nil, ac_run_spec, ac_flush_true]
    by_cases h : r = 0
    · simp [h]
    · rw [if_pos h, if_pos (by omega)]
  | cons v rest ih =>
    intro r acc
    simp only [List.foldl_cons]
    by_cases hv : v = 0
    · have hstep : ac_step t (r, acc) v = (r + 1, acc) := by
        simp [ac_step, ac_next, hv]
      rw [hstep, ih (r + 1) acc]
      simp [ac_run_spec, hv]
    · have hstep : ac_step t (r, acc) v
          = (0, acc ++ ((List.replicate (r / 16) (entropy_encode_category t 0 (some 15))).flatten
              ++ entropy_encode_category t v (some (r % 16)))) := by
        simp [ac_step, ac_next, hv, ac_flush_false_eq]
      rw [hstep, ih 0 _]
      simp only [ac_run_spec, if_neg hv]
      simp [List.append_assoc]

/-- C5 (amended): for every Huffman table and every AC coefficient list,
the bit stream produced by the `AcEncoder` (fresh per DU, `next` per
coefficient, final `flush(true)`) equals the lazy run-length
characterization `ac_run_spec`: ZRL codes are emitted only when a nonzero
coefficient arrives (⌊r/16⌋ of them, then `((r mod 16) << 4) | category`),
and the DU ends with EOB exactly when the trailing run is nonempty —
with no ZRL for a trailing run of 16 or more. -/
theorem c5_ac_encoder_lazy_zrl (t : Nat → List Bool) (acs : List Int) :
    ac_encode_du t acs = ac_run_spec t acs 0 := by
  have h := ac_encode_du_fold t acs 0 []
  simpa [ac_encode_du] using h

/-- C5 counterexample: on a DU whose 63 AC coefficients are one nonzero
value followed by 62 zeros, the code's output (no ZRL, just EOB) differs
from the claim's eager rule (which would emit three ZRL codes inside the
trailing run).  The table maps each symbol to its 8-bit big-endian code,
so distinct symbol sequences give distinct bit streams. -/
theorem c5_ac_encoder_eager_counterexample :
    ac_encode_du (fun s => codeBits s 8) ((1 : Int) :: List.replicate 62 0)
      ≠ ac_eager_spec (fun s => codeBits s 8) ((1 : Int) :: List.replicate 62 0) 0 := by
  have h : ac_encode_du (fun s => codeBits s 8) ((1 : Int) :: List.replicate 62 0)
      = ac_run_spec (fun s => codeBits s 8) ((1 : Int) :: List.replicate 62 0) 0 := by
    have h2 := ac_encode_du_fold (fun s => codeBits s 8)
      ((1 : Int) :: List.replicate 62 0) 0 []
    simpa [ac_encode_du] using h2
  rw [h]
  decide

/-! ### C6: flush padding bits -/

/-- C6 (code behaviour at the failing input): a scan consisting of a
single 1-bit is flushed to the byte `0x80` — the seven padding bits
appended to reach the byte boundary are 0-bits (the zeroed dead storage
of the bit vector), not the 1-bits the claim requires, which would give
`0xFF` followed by the stuffed `0x00`.  A nine-bit all-ones scan shows
the same on a multi-byte output: stuffing does fire on the full `0xFF`
byte, but the final partial byte is zero-padded to `0x80`. -/
theorem c6_flush_pads_with_zero_bits :
    to_image_data [true] = [128]
    ∧ to_image_data (List.replicate 9 true) = [255, 0, 128]
    ∧ (128 : Nat) ≠ 255 := by
  refine ⟨by decide, by decide, by decide⟩

/-! ### C7: the serializer layout -/

set_option maxRecDepth 8192

/-- C7 counterexample: on the concrete output for a 0×0 image with empty
scan, the four DHT segment headers (at byte offsets 305, 338, 521, 554)
carry class/id bytes `0x00`, `0x11`, `0x02`, `0x13` — table ids 0, 1, 2,
3 — and the SOS segment (offset 737) references DC/AC ids (0, 1) and
(2, 3).  The claim's ids 0, 0, 1, 1 would put `0x10` in the second DHT
header; the code emits `0x11 ≠ 0x10`. -/
theorem c7_dht_ids_counterexample :
    (((encode_step7_bytes ⟨0, 0, []⟩).drop 305).take 5 = [0xFF, 0xC4, 0x00, 0x1F, 0x00]
      ∧ ((encode_step7_bytes ⟨0, 0, []⟩).drop 338).take 5 = [0xFF, 0xC4, 0x00, 0xB5, 0x11]
      ∧ ((encode_step7_bytes ⟨0, 0, []⟩).drop 521).take 5 = [0xFF, 0xC4, 0x00, 0x1F, 0x02]
      ∧ ((encode_step7_bytes ⟨0, 0, []⟩).drop 554).take 5 = [0xFF, 0xC4, 0x00, 0xB5, 0x13]
      ∧ ((encode_step7_bytes ⟨0, 0, []⟩).drop 737).take 14
          = [0xFF, 0xDA, 0x00, 0x0C, 0x03, 0x01, 0x01, 0x02, 0x23, 0x03, 0x23, 0x00, 0x3F, 0x00])
    ∧ (0x11 : Nat) ≠ 0x10 := by
  exact ⟨⟨by decide, by decide, by decide, by decide, by decide⟩, by decide⟩

/-- C7 (amended): for every encoded image, the serializer produces
exactly, in order: SOI, APP0 with the default JFIF values, DQT(id 0,
luminance), DQT(id 1, chrominance), SOF0 with the image dimensions as
`u16`, then the four DHT segments DHT(class 0, id 0, lum-DC),
DHT(class 1, id 1, lum-AC), DHT(class 0, id 2, chr-DC),
DHT(class 1, id 3, chr-AC), then SOS whose component entries reference
DC/AC ids (0, 1) for component 1 and (2, 3) for components 2 and 3, the
byte-stuffed scan, and EOI. -/
theorem c7_serializer_layout (data : JpegOutputData) :
    encode_step7_bytes data
      = serializedHeaderPre ++ u16be (data.original_height % 65536)
        ++ u16be (data.original_width % 65536) ++ serializedTablesMid
        ++ to_image_data data.scan ++ [0xFF, 0xD9] := by
  have happ0 : APP0.default.to_vec = c7App0Lit := by decide
  have hdqt : (([to_dqt LUMINANCE_QUANTIZATION_TABLE 0,
      to_dqt CHROMINANCE_QUANTIZATION_TABLE 1]).map DQT.to_vec).flatten = c7DqtLit := by
    decide
  have hdht : (([to_dht DEFAULT_LUMINANCE_DC_HUFFMAN_TABLE 0 0,
      to_dht DEFAULT_LUMINANCE_AC_HUFFMAN_TABLE 1 1,
      to_dht DEFAULT_CHROMA_DC_HUFFMAN_TABLE 2 0,
      to_dht DEFAULT_CHROMA_AC_HUFFMAN_TABLE 3 1]).map DHT.to_vec).flatten = c7DhtLit := by
    decide
  have hsos : SOS.default.to_vec = c7SosLit := by decide
  have hsof : ∀ hb wb : Nat,
      ({ SOF0.default with lines := hb, samples_per_line := wb } : SOF0).to_vec
        = c7SofHeadLit ++ u16be hb ++ u16be wb ++ c7SofCompLit := by
    intro hb wb
    simp [SOF0.to_vec, SOF0.default, u16be, c7SofHeadLit, c7SofCompLit]
  have hpre : serializedHeaderPre = ([0xFF, 0xD8] ++ c7App0Lit ++ c7DqtLit) ++ c7SofHeadLit := by
    decide
  have hmid : serializedTablesMid = c7SofCompLit ++ c7DhtLit ++ c7SosLit := by decide
  simp only [encode_step7_bytes]
  rw [happ0, hdqt, hdht, hsos, hsof, hpre, hmid]
  simp only [List.append_assoc]

/-! ### C8 and C9: marker parser facts -/

theorem obind_ok {α β : Type} (a : α) (f : α → Outcome β) :
    obind (Outcome.ok a) f = f a := rfl

theorem obind_err {α β : Type} (k : IoErrorKind) (f : α → Outcome β) :
    obind (Outcome.err k) f = (Outcome.err k : Outcome β) := rfl

theorem obind_panic {α β : Type} (f : α → Outcome β) :
    obind Outcome.panic f = (Outcome.panic : Outcome β) := rfl

theorem obind_hang {α β : Type} (f : α → Outcome β) :
    obind Outcome.hang f = (Outcome.hang : Outcome β) := rfl

theorem read_u8_cons (z : Nat) (tail : List Nat) (s : Nat) :
    read_u8 ⟨z :: tail, s + 1⟩
      = if s + 1 < tail.length + 1 then .ok (tail.getD s 0, ⟨z :: tail, s + 1 + 1⟩)
        else .err .unexpectedEof := by
  simp only [read_u8, List.length_cons, List.getD_cons_succ]

theorem read_u16_cons (z : Nat) (tail : List Nat) (s : Nat) :
    read_u16 ⟨z :: tail, s + 1⟩
      = if s + 1 + 1 < tail.length + 1
        then .ok (tail.getD s 0 * 256 + tail.getD (s + 1) 0, ⟨z :: tail, s + 1 + 1 + 1⟩)
        else .err .unexpectedEof := by
  by_cases h2 : s + 1 + 1 < tail.length + 1
  · have h1 : s + 1 < tail.length + 1 := by omega
    rw [if_pos h2]
    simp only [read_u16, read_u8_cons z tail s, if_pos h1, obind]
    simp only [read_u8_cons z tail (s + 1), if_pos h2, obind]
  · rw [if_neg h2]
    by_cases h1 : s + 1 < tail.length + 1
    · simp only [read_u16, read_u8_cons z tail s, if_pos h1, obind]
      simp only [read_u8_cons z tail (s + 1), if_neg h2, obind]
    · simp only [read_u16, read_u8_cons z tail s, if_neg h1, obind]

theorem oproj_bind_cons (v : Nat) (A : Outcome (List Nat × ByteReader)) :
    oproj (obind A (fun q => .ok (v :: q.1, q.2)))
      = obind (oproj A) (fun q => .ok (v :: q.1, q.2)) := by
  cases A <;> rfl

/-- The 64 DQT value reads never look at buffer index 0 again once the
read position is past it: the values and final position are independent
of the first byte. -/
theorem readQtValues_tail :
    ∀ (n precision s x y : Nat) (tail : List Nat),
      oproj (readQtValues precision n ⟨x :: tail, s + 1⟩)
        = oproj (readQtValues precision n ⟨y :: tail, s + 1⟩) := by
  intro n
  induction n with
  | zero => intro precision s x y tail; rfl
  | succ n ih =>
    intro precision s x y tail
    simp only [readQtValues]
    by_cases hp : precision = 0
    · rw [if_pos hp, if_pos hp, read_u8_cons x tail s, read_u8_cons y tail s]
      by_cases hc : s + 1 < tail.length + 1
      · rw [if_pos hc, if_pos hc]
        simp only [obind_ok]
        rw [oproj_bind_cons, oproj_bind_cons, ih precision (s + 1) x y tail]
      · rw [if_neg hc, if_neg hc]
    · rw [if_neg hp, if_neg hp, read_u16_cons x tail s, read_u16_cons y tail s]
      by_cases hc : s + 1 + 1 < tail.length + 1
      · rw [if_pos hc, if_pos hc]
        simp only [obind_ok]
        rw [oproj_bind_cons, oproj_bind_cons, ih precision (s + 1 + 1) x y tail]
      · rw [if_neg hc, if_neg hc]

/-- A continuation that only uses the values read gives equal results on
readers with equal projections. -/
theorem obind_vals_congr {X : Type} (A B : Outcome (List Nat × ByteReader))
    (hAB : oproj A = oproj B) (g : List Nat → Outcome X) :
    obind A (fun q => g q.1) = obind B (fun q => g q.1) := by
  cases A with
  | ok a =>
    cases B with
    | ok b =>
      simp only [oproj, obind_ok, Outcome.ok.injEq, Prod.mk.injEq] at hAB
      show g a.1 = g b.1
      rw [hAB.1]
    | err k =>
      simp only [oproj, obind_ok, obind_err] at hAB
      exact Outcome.noConfusion hAB
    | panic =>
      simp only [oproj, obind_ok, obind_panic] at hAB
      exact Outcome.noConfusion hAB
    | hang =>
      simp only [oproj, obind_ok, obind_hang] at hAB
      exact Outcome.noConfusion hAB
  | err k =>
    cases B with
    | ok b =>
      simp only [oproj, obind_ok, obind_err] at hAB
      exact Outcome.noConfusion hAB
    | err k2 =>
      simp only [oproj, obind_err, Outcome.err.injEq] at hAB
      rw [obind_err, obind_err, hAB]
    | panic =>
      simp only [oproj, obind_err, obind_panic] at hAB
      exact Outcome.noConfusion hAB
    | hang =>
      simp only [oproj, obind_err, obind_hang] at hAB
      exact Outcome.noConfusion hAB
  | panic =>
    cases B with
    | ok b =>
      simp only [oproj, obind_ok, obind_panic] at hAB
      exact Outcome.noConfusion hAB
    | err k2 =>
      simp only [oproj, obind_err, obind_panic] at hAB
      exact Outcome.noConfusion hAB
    | panic => rfl
    | hang =>
      simp only [oproj, obind_hang, obind_panic] at hAB
      exact Outcome.noConfusion hAB
  | hang =>
    cases B with
    | ok b =>
      simp only [oproj, obind_ok, obind_hang] at hAB
      exact Outcome.noConfusion hAB
    | err k2 =>
      simp only [oproj, obind_err, obind_hang] at hAB
      exact Outcome.noConfusion hAB
    | panic =>
      simp only [oproj, obind_panic, obind_hang] at hAB
      exact Outcome.noConfusion hAB
    | hang => rfl

/-- C8 counterexample: in `jpegTwoDqtBytes` the DQT carrying wire id 1
(all-7 entries) comes first and the DQT carrying wire id 0 (all-9
entries) second, while every SOF0 component references `qt_id = 0`.  The
claim requires each component to resolve to the all-9 table (wire id 0);
the decoder resolves all three components to the all-7 table. -/
theorem c8_dqt_id_counterexample :
    (match decode_step1 jpegTwoDqtBytes with
     | .ok d => d.components.map (fun c => c.quatization_table)
     | _ => []) = [qtConst 7, qtConst 7, qtConst 7]
    ∧ qtConst 7 ≠ qtConst 9 := by
  exact ⟨by decide, by decide⟩

/-- C8 (amended): the decoder ignores the ID nibble carried in a DQT
segment — `parse_dqt` gives identical results for any two ids under the
same precision — and stores quantization tables in order of appearance;
a component's `qt_id` is resolved as a positional index into that order:
in `jpegTwoDqtBytesQt1` the components reference `qt_id = 1` and resolve
to the second-appearing (all-9) table although its wire id is 0. -/
theorem c8_dqt_tables_positional :
    (∀ (p : Nat) (i i' : Fin 16) (rest : List Nat),
        parse_dqt ((16 * p + (i : Nat)) :: rest) = parse_dqt ((16 * p + (i' : Nat)) :: rest))
    ∧ (match decode_step1 jpegTwoDqtBytesQt1 with
       | .ok d => d.components.map (fun c => c.quatization_table)
       | _ => []) = [qtConst 9, qtConst 9, qtConst 9] := by
  constructor
  · intro p i i' rest
    have hshift : ∀ j : Fin 16, (16 * p + (j : Nat)) >>> 4 = p := by
      intro j
      have hj := j.isLt
      rw [Nat.shiftRight_eq_div_pow]
      show (16 * p + (j : Nat)) / 2 ^ 4 = p
      omega
    simp only [parse_dqt, read_u8, List.length_cons, List.getD_cons_zero]
    rw [if_pos (by omega), if_pos (by omega)]
    simp only [obind_ok, hshift]
    exact obind_vals_congr _ _ (readQtValues_tail 64 p 0 _ _ rest)
      (fun vals => Outcome.ok ((zigzagPositions.zip vals).foldl
        (fun acc pv => writeMatList acc pv.1 pv.2)
        (List.replicate 8 (List.replicate 8 0))))
  · decide

/-- C9 counterexample: a byte stream whose first (and only) marker is a
DQT — no SOI anywhere — parses successfully to the default
`CompleteJpegData`, instead of the `BadMarker`-kind (`InvalidData`)
error the claim requires for a stream whose first marker is not SOI. -/
theorem c9_no_soi_counterexample :
    decode_step1 noSoiDqtBytes = .ok ⟨0, 0, [], []⟩
    ∧ Outcome.ok (⟨0, 0, [], []⟩ : CompleteJpegData) ≠ Outcome.err .invalidData := by
  exact ⟨by decide, by decide⟩

/-- C9 (amended): the marker parser enforces no state machine and
accepts the supported markers in any order — in particular a stream with
no SOI can parse successfully.  It returns an `InvalidData` error when a
segment does not begin with `0xFF` (for every such stream) and when
`0xFF` is followed by an unsupported marker byte such as SOF2. -/
theorem c9_no_marker_state_machine :
    (∀ (b : Nat) (rest : List Nat), b ≠ 0xFF →
        decode_step1 (b :: rest) = .err .invalidData)
    ∧ decode_step1 [0xFF, 0xC2] = .err .invalidData
    ∧ decode_step1 noSoiDqtBytes = .ok ⟨0, 0, [], []⟩ := by
  refine ⟨?_, by decide, by decide⟩
  intro b rest hb
  simp only [decode_step1, List.length_cons, decodeStep1Loop, read_u8,
    List.getD_cons_zero, obind]
  rw [if_pos (by simp), if_pos (by simp)]
  simp only [obind]
  rw [if_pos hb]

/-- Closed witness for `c9_no_marker_state_machine` at the byte 0. -/
theorem c9_no_marker_state_machine_witness :
    ((0 : Nat) ≠ 0xFF) ∧ decode_step1 [0] = .err .invalidData :=
  ⟨by decide, c9_no_marker_state_machine.1 0 [] (by decide)⟩

/-! ### C1: `decode` never returns a raster -/

/-- C1: `decode` ends in `todo!()`.  On the empty input (which
`decode_step1` and `decode_step2` both accept) and on the well-formed
JPEG stream `jpegTwoDqtBytes`, `decode` panics instead of returning a
raster or a `DecodeError` — indeed its Rust signature is
`io::Result<()>` and no raster is ever produced. -/
theorem c1_decode_panics_on_todo :
    decode [] = Outcome.panic ∧ decode jpegTwoDqtBytes = Outcome.panic := by
  exact ⟨by decide, by decide⟩

/-- Closed witness for `c3_generate_bits_canonical` at the default
luminance DC `code_lengths`. -/
theorem c3_generate_bits_canonical_witness :
    (([0, 1, 5, 1, 1, 1, 1, 1, 1, 0, 0, 0, 0, 0, 0, 0] : List Nat).length = 16
      ∧ kraftSum [0, 1, 5, 1, 1, 1, 1, 1, 1, 0, 0, 0, 0, 0, 0, 0] ≤ 2 ^ 16)
    ∧ (List.Pairwise HuffRel (generate_bits [0, 1, 5, 1, 1, 1, 1, 1, 1, 0, 0, 0, 0, 0, 0, 0])
      ∧ (generate_bits [0, 1, 5, 1, 1, 1, 1, 1, 1, 0, 0, 0, 0, 0, 0, 0]).map
            (fun cw => (cw.length, bitsVal cw))
          = canonicalCodes 0 1 [0, 1, 5, 1, 1, 1, 1, 1, 1, 0, 0, 0, 0, 0, 0, 0]
      ∧ ∀ values, to_cached ⟨[0, 1, 5, 1, 1, 1, 1, 1, 1, 0, 0, 0, 0, 0, 0, 0], values⟩
          = values.zip (generate_bits [0, 1, 5, 1, 1, 1, 1, 1, 1, 0, 0, 0, 0, 0, 0, 0])) :=
  ⟨⟨by decide, by decide⟩,
    c3_generate_bits_canonical [0, 1, 5, 1, 1, 1, 1, 1, 1, 0, 0, 0, 0, 0, 0, 0]
      (by decide) (by decide)⟩

end Jpeglab
